import Mathlib

/-!
# Verification of the signal-analyzer numerical core

Shallow embedding, over `ℚ` (exact arithmetic standing for the source's
real-number semantics) and `List Char` (for raw text), of the numerical
pipeline implemented in `src/unnamed/part_000`:

* matrix utilities (`transpose`, `multiplyMatrices`, `invertMatrix`),
* the Savitzky–Golay smoothing filter (`savitzkyGolay`) and its
  derivative variant (`calculateDerivativeSG`),
* the CSV row parser inside `parseCSV`,
* the root de-duplication pass (`filterClosePoints`),
* the signal-intersection finder (`findSignalIntersectionsAtZero`),
* the jump-edge detector (`findLargestJumpStart`, `findJumpByDerivative`).

JavaScript arrays of numbers become `List ℚ`; fixed-size matrices become
Mathlib matrices over `ℚ` (the `multiplyMatrices` triple loop computes
exactly `(M * N) i j = ∑ k, M i k * N k j`, and `transpose` is `Matrix.transpose`,
so those two helpers are embedded by the Mathlib operations directly).
Code that can throw an uncaught exception is embedded as an `Option`
returning function with `none` for the exception.
-/

namespace SignalAnalyzer

/-! ## Gauss–Jordan inversion (`invertMatrix`, part_000 lines 38–55)

The source augments the input matrix `m` with the identity and runs
Gauss–Jordan elimination with partial pivoting.  The augmented matrix
`[B | C]` is embedded as a pair of square matrices; the pivot threshold
`1e-15` makes the source throw `Matrix degenerate`, which the callers
catch, so the embedding returns `Option`. -/

/-- The left (`B`, originally `m`) and right (`C`, originally the identity)
blocks of the augmented matrix `A` used by `invertMatrix`. -/
structure GJ (n : ℕ) where
  B : Matrix (Fin n) (Fin n) ℚ
  C : Matrix (Fin n) (Fin n) ℚ

/-- Pivot magnitude threshold `1e-15` of `invertMatrix`. -/
def gjEps : ℚ := 1 / 10 ^ 15

/-- The partial-pivot search: starting from `maxRow = i`, scan `k = i+1 .. n-1`
and replace `maxRow` by `k` whenever `|A[k][i]| > |A[maxRow][i]|`. -/
def pivotSearch {n : ℕ} (B : Matrix (Fin n) (Fin n) ℚ) (i : Fin n) : Fin n :=
  ((List.finRange n).filter (fun k => i < k)).foldl
    (fun best k => if |B best i| < |B k i| then k else best) i

/-- The function swapping the row indices `i` and `p` (the source's
`[A[i], A[maxRow]] = [A[maxRow], A[i]]`). -/
def swapIdx {n : ℕ} (i p : Fin n) (k : Fin n) : Fin n :=
  if k = i then p else if k = p then i else k

/-- Row swap `[A[i], A[maxRow]] = [A[maxRow], A[i]]` on both blocks of the
augmented matrix. -/
def gjSwap {n : ℕ} (st : GJ n) (i p : Fin n) : GJ n :=
  ⟨fun k j => st.B (swapIdx i p k) j, fun k j => st.C (swapIdx i p k) j⟩

/-- Row scaling `for j: A[i][j] /= diag` with `diag = A[i][i]`, on both
blocks of the augmented matrix. -/
def gjScale {n : ℕ} (st : GJ n) (i : Fin n) : GJ n :=
  ⟨fun k j => if k = i then st.B k j / st.B i i else st.B k j,
   fun k j => if k = i then st.C k j / st.B i i else st.C k j⟩

/-- The elimination `for k ≠ i: A[k][j] -= factor * A[i][j]` with
`factor = A[k][i]`, on both blocks (the factor lives in the left block). -/
def gjElim {n : ℕ} (st : GJ n) (i : Fin n) : GJ n :=
  ⟨fun k j => if k = i then st.B k j else st.B k j - st.B k i * st.B i j,
   fun k j => if k = i then st.C k j else st.C k j - st.B k i * st.C i j⟩

/-- One column step of the Gauss–Jordan loop of `invertMatrix`: partial
pivot search, degeneracy check (`none` embeds the thrown exception),
row swap, scaling of row `i` by `1 / diag`, and elimination of column `i`
from every other row, applied to both blocks of the augmented matrix. -/
def gjStep {n : ℕ} (st : GJ n) (i : Fin n) : Option (GJ n) :=
  let p := pivotSearch st.B i
  if |st.B p i| < gjEps then none
  else some (gjElim (gjScale (gjSwap st i p) i) i)

/-- The `for (let i = 0; i < n; i++)` loop of `invertMatrix`, running the
column steps in order; an exception at any step aborts the whole loop. -/
def gjGo {n : ℕ} : List (Fin n) → GJ n → Option (GJ n)
  | [], st => some st
  | i :: rest, st => (gjStep st i).bind (gjGo rest)

/-- `invertMatrix` (part_000 lines 38–55): Gauss–Jordan inversion with the
`1e-15` degeneracy threshold; `A.map(row => row.slice(n))` is the right
block `C` of the final augmented matrix. -/
def invertMatrix {n : ℕ} (m : Matrix (Fin n) (Fin n) ℚ) : Option (Matrix (Fin n) (Fin n) ℚ) :=
  (gjGo (List.finRange n) ⟨m, 1⟩).map GJ.C

/-! ## Savitzky–Golay filter (`savitzkyGolay`, part_000 lines 58–94) -/

/-- Parameter normalization of `savitzkyGolay`:
`windowSize = Math.max(3, Math.floor(windowSize)); if even, += 1`. -/
def normW (w : ℕ) : ℕ :=
  if max 3 w % 2 = 0 then max 3 w + 1 else max 3 w

/-- Parameter normalization of `savitzkyGolay`:
`polyOrder = Math.max(1, Math.floor(polyOrder)); if ≥ windowSize, = windowSize - 1`
(`w` is the already-normalized window size). -/
def normP (w p : ℕ) : ℕ :=
  if w ≤ max 1 p then w - 1 else max 1 p

/-- Number of rows of the design matrix: the loop `for i = -half .. half`
with `half = Math.floor(windowSize / 2)` produces `2 * (w / 2) + 1` rows. -/
def sgRows (w : ℕ) : ℕ := 2 * (w / 2) + 1

/-- The design matrix `A` with rows indexed by the offset `i ∈ [-half, half]`
(row `r` is offset `r - half`) and columns by the power `p`, entry `i ** p`. -/
def designA (w p : ℕ) : Matrix (Fin (sgRows w)) (Fin (p + 1)) ℚ :=
  fun r c => (((r : ℤ) - (w / 2 : ℕ) : ℤ) : ℚ) ^ (c : ℕ)

/-- The normal-equations matrix `ATA = multiplyMatrices(transpose(A), A)`. -/
def gram (w p : ℕ) : Matrix (Fin (p + 1)) (Fin (p + 1)) ℚ :=
  (Matrix.transpose (designA w p)) * designA w p

/-- The smoothing coefficient vector: row `0` of
`ATAinvAT = multiplyMatrices(invertMatrix(ATA), transpose(A))`;
`none` when `invertMatrix` throws (caught by the caller). -/
def sgCoeffs (w p : ℕ) : Option (Fin (sgRows w) → ℚ) :=
  (invertMatrix (gram w p)).map fun inv => fun j => (inv * (Matrix.transpose (designA w p))) 0 j

/-- Index clamping of the convolution loops:
`idx = i + j; if (idx < 0) idx = 0; if (idx >= n) idx = n - 1`. -/
def clampIdx (n : ℕ) (x : ℤ) : ℕ :=
  if x < 0 then 0 else if (n : ℤ) ≤ x then n - 1 else x.toNat

/-- The sliding-window convolution of `savitzkyGolay` /
`calculateDerivativeSG`: for every output index `i`, the dot product of the
coefficient vector with the edge-clamped window `data[clamp(i + j)]`,
`j ∈ [-half, half]` (position `j + half` of the coefficient vector). -/
def convolve (R : ℕ) (coeffs : Fin R → ℚ) (data : List ℚ) : List ℚ :=
  (List.range data.length).map fun (i : ℕ) =>
    ∑ j : Fin R, data.getD (clampIdx data.length ((i : ℤ) + (j : ℤ) - (R / 2 : ℕ))) 0 * coeffs j

/-- `savitzkyGolay` (part_000 lines 58–94): empty input gives `[]`;
parameters are normalized; a degenerate normal-equations matrix is caught
and the input is returned unchanged (`return data.slice()`); otherwise the
smoothing coefficients are applied as a clamped sliding window. -/
def savitzkyGolay (data : List ℚ) (windowSize polyOrder : ℕ) : List ℚ :=
  if data.length = 0 then []
  else
    let w := normW windowSize
    let p := normP w polyOrder
    match sgCoeffs w p with
    | none => data
    | some c => convolve (sgRows w) c data

/-- `calculateDerivativeSG` (part_000 lines 97–129).  No parameter
normalization happens here.  `signal.length < 3` returns zeros; a
degenerate matrix is caught and returns zeros; `ATAinvAT[1]` is `undefined`
when the product has a single row (`polyOrder = 0`), and the subsequent
`coeffsDeriv[j + half]` then throws an uncaught `TypeError`, embedded as
`none`.  Otherwise the derivative coefficients are applied as a clamped
sliding window and divided by `dtConst = t[1] - t[0]`. -/
def calculateDerivativeSG (t signal : List ℚ) (windowSize polyOrder : ℕ) : Option (List ℚ) :=
  let n := signal.length
  if n < 3 then some (List.replicate n 0)
  else
    match invertMatrix (gram windowSize polyOrder) with
    | none => some (List.replicate n 0)
    | some inv =>
      if h : 1 < polyOrder + 1 then
        let cd : Fin (sgRows windowSize) → ℚ :=
          fun j => (inv * (Matrix.transpose (designA windowSize polyOrder))) ⟨1, h⟩ j
        let dtConst := t.getD 1 0 - t.getD 0 0
        some ((convolve (sgRows windowSize) cd signal).map fun acc => acc / dtConst)
      else none

/-! ## Root de-duplication (`filterClosePoints`, part_000 lines 251–271)

The two parallel arrays `t0` / `y0` are embedded as a list of
`(time, value)` pairs (`zip`), which the source keeps index-aligned. -/

/-- Inner sweep of one de-duplication pass, after the first point:
keep `outT[i]` only when `outT[i] - newT[newT.length - 1] >= minDistance`,
where `last` is the time of the most recently kept point. -/
def dedupeGo (d : ℚ) : ℚ → List (ℚ × ℚ) → List (ℚ × ℚ)
  | _, [] => []
  | last, q :: rest =>
    if d ≤ q.1 - last then q :: dedupeGo d q.1 rest else dedupeGo d last rest

/-- One pass of the `for (let k = 0; k < 10; k++)` loop: the first point is
always kept (`newT = [outT[0]]`), then the sweep runs over the rest. -/
def dedupePass (d : ℚ) : List (ℚ × ℚ) → List (ℚ × ℚ)
  | [] => []
  | q :: rest => q :: dedupeGo d q.1 rest

/-- The iteration cap: up to 10 passes, stopping early as soon as a pass
does not shrink the list (`if (newT.length === outT.length) break`). -/
def dedupeLoop (d : ℚ) : ℕ → List (ℚ × ℚ) → List (ℚ × ℚ)
  | 0, cur => cur
  | fuel + 1, cur =>
    let next := dedupePass d cur
    if next.length = cur.length then cur else dedupeLoop d fuel next

/-- `filterClosePoints` (part_000 lines 251–271): lists with at most one
point are returned unchanged; otherwise the capped de-duplication loop
runs and the kept pairs are split back into two parallel lists. -/
def filterClosePoints (t0 y0 : List ℚ) (minDistance : ℚ) : List ℚ × List ℚ :=
  if t0.length ≤ 1 then (t0, y0)
  else
    let out := dedupeLoop minDistance 10 (t0.zip y0)
    (out.map Prod.fst, out.map Prod.snd)

/-! ## Signal intersections (`findSignalIntersectionsAtZero`, part_000 lines 274–289) -/

/-- The body of the intersection loop at index `i ∈ [1, t.length)`: `some`
exactly when the source pushes a point (sign change of the pointwise
difference and interpolated amplitude within the threshold). -/
def fsiStep (t tenz interf : List ℚ) (yThreshold : ℚ) (i : ℕ) : Option (ℚ × ℚ) :=
  let diffPrev := tenz.getD (i - 1) 0 - interf.getD (i - 1) 0
  let diffCurr := tenz.getD i 0 - interf.getD i 0
  if (diffPrev ≤ 0 ∧ 0 < diffCurr) ∨ (0 ≤ diffPrev ∧ diffCurr < 0) then
    let lam := -diffPrev / (diffCurr - diffPrev)
    let time := t.getD (i - 1) 0 + lam * (t.getD i 0 - t.getD (i - 1) 0)
    let value := (tenz.getD (i - 1) 0 + lam * (tenz.getD i 0 - tenz.getD (i - 1) 0)
        + interf.getD (i - 1) 0 + lam * (interf.getD i 0 - interf.getD (i - 1) 0)) / 2
    if |value| ≤ yThreshold then some (time, value) else none
  else none

/-- `findSignalIntersectionsAtZero` (part_000 lines 274–289): the loop
`for (let i = 1; i < t.length; i++)` with a conditional `push` is the
`filterMap` of the step function over the index range. -/
def findSignalIntersectionsAtZero (t tenz interf : List ℚ) (yThreshold : ℚ) : List (ℚ × ℚ) :=
  (List.range' 1 (t.length - 1)).filterMap (fsiStep t tenz interf yThreshold)

/-! ## Jump-edge detector (part_000 lines 292–374) -/

/-- `Math.sign`. -/
def jsSign (q : ℚ) : ℚ := if q < 0 then -1 else if 0 < q then 1 else 0

/-- The slope list of `findJumpByDerivative`:
`slopes[i-1] = (signal[i] - signal[i-1]) / max(t[i] - t[i-1], 1e-12)`. -/
def jumpSlopes (t signal : List ℚ) : List ℚ :=
  (List.range (signal.length - 1)).map fun i =>
    (signal.getD (i + 1) 0 - signal.getD i 0) / max (t.getD (i + 1) 0 - t.getD i 0) (1 / 10 ^ 12)

/-- The backward walk of `findJumpByDerivative`: starting from the index of
maximal absolute slope, step back while the previous slope keeps the same
sign and magnitude at least the threshold. -/
def jumpWalk (slopes : List ℚ) (slopeSign thr : ℚ) : ℕ → ℕ
  | 0 => 0
  | k + 1 =>
    if jsSign (slopes.getD k 0) ≠ slopeSign ∨ |slopes.getD k 0| < thr then k + 1
    else jumpWalk slopes slopeSign thr k

/-- `findJumpByDerivative` (part_000 lines 292–326): fallback start-index
search by maximal discrete slope plus backward onset walk. -/
def findJumpByDerivative (t signal : List ℚ) : Option ℕ :=
  let slopes := jumpSlopes t signal
  if slopes.length = 0 then none
  else
    let best := (List.range' 1 (slopes.length - 1)).foldl
      (fun mi i => if |slopes.getD mi 0| < |slopes.getD i 0| then i else mi) 0
    let maxSlope := slopes.getD best 0
    let slopeSign := if jsSign maxSlope = 0 then 1 else jsSign maxSlope
    some (jumpWalk slopes slopeSign (|maxSlope| * (35 / 100)) best)

/-- The amplitude-threshold scan of `findLargestJumpStart`:
first index whose (smoothed) sample is `≤ threshold`, if any. -/
def firstIdxLE : List ℚ → ℚ → Option ℕ
  | [], _ => none
  | x :: xs, thr => if x ≤ thr then some 0 else (firstIdxLE xs thr).map (· + 1)

/-- `findLargestJumpStart` (part_000 lines 328–374): `null` (⟶ `none`) on
non-arrays, fewer than 3 samples, or length mismatch; otherwise smooth with
`savitzkyGolay(signal, 11, 2)`, compute the leading-window baseline, the
global minimum (fold seeded with the baseline), and the amplitude; scan for
the first sample at or below `baseline - 0.15 * amplitude`, falling back to
the derivative search; finally convert the start index into a
`{time, window}` pair. -/
def findLargestJumpStart (t signal : List ℚ) : Option (ℚ × ℚ) :=
  if t.length < 3 ∨ t.length ≠ signal.length then none
  else
    let smoothSignal := savitzkyGolay signal 11 2
    let n := smoothSignal.length
    let headCount := max 20 (n * 5 / 100)
    let baseline := (smoothSignal.take headCount).foldl (· + ·) 0 / (headCount : ℚ)
    let minVal := smoothSignal.foldl (fun m v => min m v) baseline
    let amplitude := baseline - minVal
    let fromThreshold : Option ℕ :=
      if 0 < amplitude then firstIdxLE smoothSignal (baseline - amplitude * (15 / 100))
      else none
    let startIdx? : Option ℕ := Option.or fromThreshold (findJumpByDerivative t smoothSignal)
    startIdx?.map fun startIdx =>
      let windowSamples := max 20 (signal.length * 2 / 100)
      let leftIdx := startIdx - windowSamples
      let rightIdx := min (signal.length - 1) (startIdx + windowSamples)
      let window :=
        if 0 < t.getD rightIdx 0 - t.getD leftIdx 0 then t.getD rightIdx 0 - t.getD leftIdx 0
        else 1 / 10 ^ 6
      (t.getD startIdx 0, window)

/-! ## CSV parsing (`parseCSV` rows, part_000 lines 139–178)

Raw text is embedded as `List Char` (JavaScript strings are sequences of
characters); `split`, `trim` and `startsWith` are given structurally
recursive embeddings.  A JavaScript number produced by `parseFloat` is a
`JSVal`: `NaN`, `±Infinity`, or a finite value (exact arithmetic; float
rounding, including overflow of huge literals to `Infinity`, is outside
the model). -/

/-- The result of `parseFloat` and the arithmetic on it: `NaN`,
`±Infinity`, or a finite number. -/
inductive JSVal where
  | nan : JSVal
  | posInf : JSVal
  | negInf : JSVal
  | num : ℚ → JSVal
deriving DecidableEq

/-- `isNaN`. -/
def JSVal.isNaN : JSVal → Bool
  | nan => true
  | _ => false

/-- A `JSVal` is finite when it is an actual number (not `NaN`, not `±Infinity`). -/
def JSVal.isFinite : JSVal → Bool
  | num _ => true
  | _ => false

/-- JavaScript multiplication on `JSVal`s. -/
def jsMul : JSVal → JSVal → JSVal
  | .nan, _ => .nan
  | _, .nan => .nan
  | .num a, .num b => .num (a * b)
  | .posInf, .num b => if b = 0 then .nan else if 0 < b then .posInf else .negInf
  | .negInf, .num b => if b = 0 then .nan else if 0 < b then .negInf else .posInf
  | .num a, .posInf => if a = 0 then .nan else if 0 < a then .posInf else .negInf
  | .num a, .negInf => if a = 0 then .nan else if 0 < a then .negInf else .posInf
  | .posInf, .posInf => .posInf
  | .posInf, .negInf => .negInf
  | .negInf, .posInf => .negInf
  | .negInf, .negInf => .posInf

/-- JavaScript addition on `JSVal`s. -/
def jsAdd : JSVal → JSVal → JSVal
  | .nan, _ => .nan
  | _, .nan => .nan
  | .num a, .num b => .num (a + b)
  | .posInf, .negInf => .nan
  | .negInf, .posInf => .nan
  | .posInf, _ => .posInf
  | _, .posInf => .posInf
  | .negInf, _ => .negInf
  | _, .negInf => .negInf

/-- White space for `trim` / `parseFloat` (the ASCII part of the
JavaScript white-space set, which is all the claims exercise). -/
def isWS (c : Char) : Bool := c = ' ' ∨ c = '\t' ∨ c = '\n' ∨ c = '\r'

/-- ASCII decimal digit. -/
def isDig (c : Char) : Bool := '0' ≤ c ∧ c ≤ '9'

/-- Value of a digit string. -/
def digitsVal (l : List Char) : ℕ := l.foldl (fun a c => 10 * a + (c.toNat - 48)) 0

/-- The exponent part of the `parseFloat` grammar: `[eE][+-]?digits`; an
absent or incomplete exponent contributes `0` (it is not consumed). -/
def expVal (l : List Char) : ℤ :=
  match l with
  | c :: rest =>
    if c = 'e' ∨ c = 'E' then
      match rest with
      | '+' :: ds => if ds.takeWhile isDig = [] then 0 else (digitsVal (ds.takeWhile isDig) : ℤ)
      | '-' :: ds => if ds.takeWhile isDig = [] then 0 else -(digitsVal (ds.takeWhile isDig) : ℤ)
      | ds => if ds.takeWhile isDig = [] then 0 else (digitsVal (ds.takeWhile isDig) : ℤ)
    else 0
  | [] => 0

/-- The unsigned decimal part of the `parseFloat` grammar:
`digits [. digits] [exponent]` or `. digits [exponent]`; `none` when no
digit is found (`parseFloat` returns `NaN`). -/
def decVal (l : List Char) : Option ℚ :=
  let intDs := l.takeWhile isDig
  let rest1 := l.drop intDs.length
  let fracDs :=
    match rest1 with
    | '.' :: r => r.takeWhile isDig
    | _ => []
  let rest2 :=
    match rest1 with
    | '.' :: r => r.drop fracDs.length
    | _ => rest1
  if intDs = [] ∧ fracDs = [] then none
  else some (((digitsVal intDs : ℚ) + (digitsVal fracDs : ℚ) / 10 ^ fracDs.length)
      * 10 ^ expVal rest2)

/-- Magnitude part of `parseFloat`, after white space and an optional sign:
the literal `Infinity` or a decimal literal. -/
def parseMag (l : List Char) (neg : Bool) : JSVal :=
  if ['I', 'n', 'f', 'i', 'n', 'i', 't', 'y'].isPrefixOf l then
    if neg then JSVal.negInf else JSVal.posInf
  else
    match decVal l with
    | none => JSVal.nan
    | some q => JSVal.num (if neg then -q else q)

/-- `parseFloat`: skip leading white space, read an optional sign, then the
longest valid numeric prefix; `NaN` when there is none. -/
def jsParseFloat (s : List Char) : JSVal :=
  match s.dropWhile isWS with
  | '+' :: r => parseMag r false
  | '-' :: r => parseMag r true
  | r => parseMag r false

/-- `String.prototype.split(sep)` for a single-character separator. -/
def splitChar (sep : Char) : List Char → List (List Char)
  | [] => [[]]
  | c :: rest =>
    let r := splitChar sep rest
    if c = sep then [] :: r else (c :: r.headD []) :: r.tail

/-- `String.prototype.trim()`. -/
def jsTrim (l : List Char) : List Char :=
  ((l.dropWhile isWS).reverse.dropWhile isWS).reverse

/-- The header token `TIME,CH1,`. -/
def headerChars : List Char := ['T', 'I', 'M', 'E', ',', 'C', 'H', '1', ',']

/-- The loop state of the row-collection loop of `parseCSV`
(part_000 lines 148–178): the header flag, the data-row counter, the
`break` flag, and the three output arrays. -/
structure ParseState where
  dataStarted : Bool
  lineCount : ℕ
  stopped : Bool
  t : List JSVal
  tenz : List JSVal
  interf : List JSVal
deriving DecidableEq

/-- Initial loop state of `parseCSV`. -/
def initParseState : ParseState := ⟨false, 0, false, [], [], []⟩

/-- One iteration of the row loop of `parseCSV` (part_000 lines 154–178):
skip blank lines; a `TIME,CH1,` header line sets `dataStarted`; lines
before the header are ignored; afterwards the data-row counter is
incremented, rows below `skipStart` are discarded, the first row above
`skipEnd` stops the loop (`break`), and a surviving row is split on commas
and accepted exactly when it has at least 5 fields whose entries 0, 1, 3
all parse to non-`NaN` numbers, contributing
`(t0, ch1 * 0.00132 * 1.25, ch3 + 0.04)`. -/
def processLine (skipStart skipEnd : ℕ) (st : ParseState) (rawLine : List Char) : ParseState :=
  if st.stopped then st
  else
    let line := jsTrim rawLine
    if line = [] then st
    else if headerChars.isPrefixOf line then { st with dataStarted := true }
    else if ¬ st.dataStarted then st
    else
      let c := st.lineCount + 1
      if c < skipStart then { st with lineCount := c }
      else if skipEnd < c then { st with lineCount := c, stopped := true }
      else
        let fields := splitChar ',' line
        if 5 ≤ fields.length then
          let t0 := jsParseFloat (fields.getD 0 [])
          let ch1 := jsParseFloat (fields.getD 1 [])
          let ch3 := jsParseFloat (fields.getD 3 [])
          if ¬ t0.isNaN ∧ ¬ ch1.isNaN ∧ ¬ ch3.isNaN then
            { st with lineCount := c,
                      t := st.t ++ [t0],
                      tenz := st.tenz ++
                        [jsMul (jsMul ch1 (JSVal.num (132 / 100000))) (JSVal.num (125 / 100))],
                      interf := st.interf ++ [jsAdd ch3 (JSVal.num (4 / 100))] }
          else { st with lineCount := c }
        else { st with lineCount := c }

/-- The `options.skipStart || 6650` defaulting idiom: any falsy value
(for a number parameter, `0`) is replaced by the default. -/
def jsOrDefault (x d : ℕ) : ℕ := if x = 0 then d else x

/-- The row-collection part of `parseCSV` (part_000 lines 139–178):
defaulted bounds, split into lines, and the row loop. -/
def parseCSVRows (csvText : List Char) (skipStartOpt skipEndOpt : ℕ) : ParseState :=
  (splitChar '\n' csvText).foldl
    (processLine (jsOrDefault skipStartOpt 6650) (jsOrDefault skipEndOpt 27000)) initParseState

/-! ## Correctness of the Gauss–Jordan inversion

The key invariants of the elimination loop: the relation
`C * m = B` between the two blocks of the augmented matrix is preserved by
every row operation, and after processing column `i` the leading `i + 1`
columns of the left block are the corresponding unit columns.  Together
they show that on success `invertMatrix` returns a (two-sided) inverse. -/

/-- The pivot search never returns a row above the current one. -/
lemma pivotSearch_le {n : ℕ} (B : Matrix (Fin n) (Fin n) ℚ) (i : Fin n) :
    i ≤ pivotSearch B i := by
  have aux : ∀ (l : List (Fin n)) (b : Fin n), i ≤ b → (∀ k ∈ l, i ≤ k) →
      i ≤ l.foldl (fun best k => if |B best i| < |B k i| then k else best) b := by
    intro l
    induction l with
    | nil => intro b hb _; exact hb
    | cons a l ih =>
      intro b hb hl
      simp only [List.foldl_cons]
      apply ih
      · by_cases hc : |B b i| < |B a i|
        · simpa [hc] using hl a (by simp)
        · simpa [hc] using hb
      · intro k hk; exact hl k (by simp [hk])
  apply aux
  · exact le_refl i
  · intro k hk
    exact le_of_lt (by simpa using (List.mem_filter.mp hk).2)

/-- Left-multiplication relation is preserved by the row swap. -/
lemma gjSwap_mul {n : ℕ} {m : Matrix (Fin n) (Fin n) ℚ} {st : GJ n} (i p : Fin n)
    (h : st.C * m = st.B) : (gjSwap st i p).C * m = (gjSwap st i p).B := by
  ext k j
  have hkj := congrFun (congrFun h (swapIdx i p k)) j
  simpa [gjSwap, Matrix.mul_apply] using hkj

/-- Left-multiplication relation is preserved by the row scaling. -/
lemma gjScale_mul {n : ℕ} {m : Matrix (Fin n) (Fin n) ℚ} {st : GJ n} (i : Fin n)
    (h : st.C * m = st.B) : (gjScale st i).C * m = (gjScale st i).B := by
  ext k j
  have hkj := congrFun (congrFun h k) j
  simp only [Matrix.mul_apply] at hkj
  by_cases hk : k = i
  · simp only [gjScale, Matrix.mul_apply, if_pos hk]
    rw [Finset.sum_congr rfl fun l _ => div_mul_eq_mul_div (st.C k l) (st.B i i) (m l j),
      ← Finset.sum_div, hkj]
  · simpa [gjScale, Matrix.mul_apply, hk] using hkj

/-- Left-multiplication relation is preserved by the elimination. -/
lemma gjElim_mul {n : ℕ} {m : Matrix (Fin n) (Fin n) ℚ} {st : GJ n} (i : Fin n)
    (h : st.C * m = st.B) : (gjElim st i).C * m = (gjElim st i).B := by
  ext k j
  by_cases hk : k = i
  · subst hk
    have hkj := congrFun (congrFun h k) j
    simpa [gjElim, Matrix.mul_apply] using hkj
  · have hkj := congrFun (congrFun h k) j
    have hij := congrFun (congrFun h i) j
    simp only [Matrix.mul_apply] at hkj hij
    simp only [gjElim, Matrix.mul_apply, if_neg hk]
    rw [Finset.sum_congr rfl fun l _ => sub_mul (st.C k l) (st.B k i * st.C i l) (m l j),
      Finset.sum_sub_distrib, hkj]
    congr 1
    rw [Finset.sum_congr rfl fun l _ => mul_assoc (st.B k i) (st.C i l) (m l j),
      ← Finset.mul_sum, hij]

/-- Left-multiplication relation is preserved by a whole successful step. -/
lemma gjStep_mul {n : ℕ} {m : Matrix (Fin n) (Fin n) ℚ} {st st' : GJ n} {i : Fin n}
    (hstep : gjStep st i = some st') (h : st.C * m = st.B) : st'.C * m = st'.B := by
  simp only [gjStep] at hstep
  by_cases hc : |st.B (pivotSearch st.B i) i| < gjEps
  · rw [if_pos hc] at hstep
    exact absurd hstep (by simp)
  · rw [if_neg hc] at hstep
    obtain rfl : _ = st' := Option.some_inj.mp hstep
    exact gjElim_mul i (gjScale_mul i (gjSwap_mul i _ h))

/-- Columns `0 .. i-1` of the left block are unit columns. -/
def unitCols {n : ℕ} (st : GJ n) (i : ℕ) : Prop :=
  ∀ (j k : Fin n), (j : ℕ) < i → st.B k j = if k = j then 1 else 0

lemma gjEps_pos : (0 : ℚ) < gjEps := by norm_num [gjEps]

/-- A successful step extends the unit-column invariant to column `i`. -/
lemma gjStep_unitCols {n : ℕ} {st st' : GJ n} {i : Fin n}
    (hstep : gjStep st i = some st') (hInv : unitCols st (i : ℕ)) :
    unitCols st' ((i : ℕ) + 1) := by
  simp only [gjStep] at hstep
  by_cases hc : |st.B (pivotSearch st.B i) i| < gjEps
  · rw [if_pos hc] at hstep; exact absurd hstep (by simp)
  rw [if_neg hc] at hstep
  obtain rfl : _ = st' := Option.some_inj.mp hstep
  set p := pivotSearch st.B i with hpdef
  have hip : (i : ℕ) ≤ (p : ℕ) := pivotSearch_le st.B i
  set sw := gjSwap st i p with hswdef
  set sc := gjScale sw i with hscdef
  have hd : sw.B i i ≠ 0 := by
    have hBpi : sw.B i i = st.B p i := by simp [hswdef, gjSwap, swapIdx]
    rw [hBpi]
    intro h0
    exact hc (by rw [h0, abs_zero]; exact gjEps_pos)
  have hsw : ∀ (j k : Fin n), (j : ℕ) < (i : ℕ) → sw.B k j = if k = j then 1 else 0 := by
    intro j k hj
    have hji : j ≠ i := Fin.ne_of_val_ne (Nat.ne_of_lt hj)
    have hjp : j ≠ p := Fin.ne_of_val_ne (Nat.ne_of_lt (lt_of_lt_of_le hj hip))
    show st.B (swapIdx i p k) j = _
    rw [hInv j _ hj]
    unfold swapIdx
    by_cases h1 : k = i
    · rw [if_pos h1, if_neg (Ne.symm hjp), if_neg (by rw [h1]; exact Ne.symm hji)]
    · rw [if_neg h1]
      by_cases h2 : k = p
      · rw [if_pos h2, if_neg (Ne.symm hji), if_neg (by rw [h2]; exact Ne.symm hjp)]
      · rw [if_neg h2]
  have hsc : ∀ (j k : Fin n), (j : ℕ) < (i : ℕ) → sc.B k j = if k = j then 1 else 0 := by
    intro j k hj
    have hji : j ≠ i := Fin.ne_of_val_ne (Nat.ne_of_lt hj)
    show (if k = i then sw.B k j / sw.B i i else sw.B k j) = _
    by_cases h1 : k = i
    · rw [if_pos h1, hsw j k hj, h1, if_neg (Ne.symm hji), zero_div]
    · rw [if_neg h1, hsw j k hj]
  have hscii : sc.B i i = 1 := by
    show (if i = i then sw.B i i / sw.B i i else sw.B i i) = 1
    rw [if_pos rfl, div_self hd]
  intro j k hj
  rcases Nat.lt_succ_iff_lt_or_eq.mp hj with hj' | hj'
  · have hji : j ≠ i := Fin.ne_of_val_ne (Nat.ne_of_lt hj')
    have hscij : sc.B i j = 0 := by rw [hsc j i hj', if_neg (Ne.symm hji)]
    show (if k = i then sc.B k j else sc.B k j - sc.B k i * sc.B i j) = _
    by_cases h1 : k = i
    · rw [if_pos h1, hsc j k hj']
    · rw [if_neg h1, hscij, mul_zero, sub_zero, hsc j k hj']
  · have hjeq : j = i := Fin.val_injective hj'
    subst hjeq
    show (if k = j then sc.B k j else sc.B k j - sc.B k j * sc.B j j) = _
    by_cases h1 : k = j
    · rw [if_pos h1, if_pos h1, h1, hscii]
    · rw [if_neg h1, if_neg h1, hscii, mul_one, sub_self]

/-- Running the loop over the remaining columns from a state satisfying the
invariants produces, on success, a left inverse of `m`. -/
lemma gjGo_correct {n : ℕ} (m : Matrix (Fin n) (Fin n) ℚ) :
    ∀ (d i : ℕ) (st st' : GJ n), i + d = n →
      unitCols st i → st.C * m = st.B →
      gjGo ((List.finRange n).drop i) st = some st' → st'.C * m = 1 := by
  intro d
  induction d with
  | zero =>
    intro i st st' hi hInv hCm hrun
    have hnil : (List.finRange n).drop i = [] := by
      apply List.drop_eq_nil_of_le
      simp only [List.length_finRange]
      omega
    rw [hnil] at hrun
    obtain rfl : st = st' := Option.some_inj.mp hrun
    have hB1 : st.B = 1 := by
      ext k j
      have hjn : (j : ℕ) < n := j.isLt
      rw [hInv j k (by omega), Matrix.one_apply]
    rw [hCm, hB1]
  | succ d ih =>
    intro i st st' hi hInv hCm hrun
    have hin : i < n := by omega
    have hdrop : (List.finRange n).drop i = ⟨i, hin⟩ :: (List.finRange n).drop (i + 1) := by
      rw [List.drop_eq_getElem_cons (by simp only [List.length_finRange]; omega)]
      congr 1
      simp
    rw [hdrop] at hrun
    cases hstep : gjStep st ⟨i, hin⟩ with
    | none =>
      simp only [gjGo, hstep, Option.none_bind] at hrun
      exact absurd hrun (by simp)
    | some st1 =>
      simp only [gjGo, hstep, Option.some_bind] at hrun
      exact ih (i + 1) st1 st' (by omega) (gjStep_unitCols hstep hInv)
        (gjStep_mul hstep hCm) hrun

/-- On success, `invertMatrix m` returns a left (hence two-sided) inverse. -/
theorem invertMatrix_mul {n : ℕ} {m M : Matrix (Fin n) (Fin n) ℚ}
    (h : invertMatrix m = some M) : M * m = 1 := by
  unfold invertMatrix at h
  cases hrun : gjGo (List.finRange n) (⟨m, 1⟩ : GJ n) with
  | none => rw [hrun] at h; exact absurd h (by simp)
  | some st =>
    rw [hrun] at h
    obtain rfl : st.C = M := by simpa using h
    exact gjGo_correct m n 0 ⟨m, 1⟩ st (by omega)
      (fun j k hj => absurd hj (by omega)) (by simp)
      (by simpa using hrun)

/-! ## Properties of the smoothing coefficients -/

/-- Column `0` of the design matrix is all ones (`i ** 0 = 1`). -/
lemma designA_zero (w p : ℕ) (r : Fin (sgRows w)) : designA w p r 0 = 1 := by
  simp [designA]

/-- Whenever the kernel derives a smoothing coefficient vector, it sums
to 1: the sum is `(inv * ATA) 0 0` because column 0 of `A` is all ones. -/
theorem sgCoeffs_sum {w p : ℕ} {c : Fin (sgRows w) → ℚ} (h : sgCoeffs w p = some c) :
    ∑ j, c j = 1 := by
  unfold sgCoeffs at h
  cases hinv : invertMatrix (gram w p) with
  | none => rw [hinv] at h; exact absurd h (by simp)
  | some inv =>
    rw [hinv] at h
    obtain rfl : (fun j => (inv * Matrix.transpose (designA w p)) 0 j) = c := by simpa using h
    have hmul := invertMatrix_mul hinv
    calc ∑ j, (fun j => (inv * Matrix.transpose (designA w p)) 0 j) j
        = ∑ j, ∑ k, inv 0 k * designA w p j k := by
          simp [Matrix.mul_apply, Matrix.transpose_apply]
      _ = ∑ k, ∑ j, inv 0 k * designA w p j k := Finset.sum_comm
      _ = ∑ k, inv 0 k * ∑ j, designA w p j k := by simp [Finset.mul_sum]
      _ = ∑ k, inv 0 k * gram w p k 0 := by
          refine Finset.sum_congr rfl fun k _ => ?_
          congr 1
          simp [gram, Matrix.mul_apply, Matrix.transpose_apply, designA_zero]
      _ = (inv * gram w p) 0 0 := by simp [Matrix.mul_apply]
      _ = 1 := by rw [hmul]; simp [Matrix.one_apply]

/-- `getD` on a replicated list inside the bound. -/
lemma getD_replicate {n i : ℕ} {q : ℚ} (h : i < n) : (List.replicate n q).getD i 0 = q := by
  rw [List.getD_eq_getElem?_getD]
  simp [List.getElem?_replicate, h]

/-- The clamped index is always a valid index of a nonempty list. -/
lemma clampIdx_lt {n : ℕ} (hn : 0 < n) (x : ℤ) : clampIdx n x < n := by
  unfold clampIdx
  split_ifs <;> omega

/-- A convolution whose coefficients sum to 1 fixes constant sequences,
boundary clamping included. -/
lemma convolve_const {R n : ℕ} (c : Fin R → ℚ) (q : ℚ) (hsum : ∑ j, c j = 1) :
    convolve R c (List.replicate n q) = List.replicate n q := by
  unfold convolve
  rw [List.length_replicate]
  refine List.eq_replicate_iff.mpr ⟨by rw [List.length_map, List.length_range], ?_⟩
  intro b hb
  simp only [List.mem_map, List.mem_range] at hb
  obtain ⟨i, hi, rfl⟩ := hb
  have hn : 0 < n := by omega
  rw [Finset.sum_congr rfl fun j _ => by rw [getD_replicate (clampIdx_lt hn _)]]
  rw [← Finset.mul_sum, hsum, mul_one]

/-- Claim C1: for every `windowSize` and `polynomialOrder` (the order being
clamped below the window size by normalization), the smoothing coefficient
vector derived by the filter kernel sums to 1, and applying the smoothing
filter to a constant sequence of any length and any constant value returns
that same constant sequence, including at the clamped boundaries. -/
theorem claimC1 (w p : ℕ) :
    (∀ c, sgCoeffs (normW w) (normP (normW w) p) = some c → ∑ j, c j = 1)
    ∧ ∀ (n : ℕ) (q : ℚ), savitzkyGolay (List.replicate n q) w p = List.replicate n q := by
  constructor
  · intro c hc
    exact sgCoeffs_sum hc
  · intro n q
    simp only [savitzkyGolay]
    by_cases hn : (List.replicate n q).length = 0
    · rw [if_pos hn]
      simp only [List.length_replicate] at hn
      rw [hn, List.replicate_zero]
    · rw [if_neg hn]
      cases hco : sgCoeffs (normW w) (normP (normW w) p) with
      | none => rfl
      | some c => exact convolve_const c q (sgCoeffs_sum hco)

/-! ## Concrete evaluations of the filter kernel

The normal-equations matrices and their Gauss–Jordan runs for the window /
order pairs used by the claims: `(5, 2)`, `(11, 2)` (the fixed parameters of
the jump-edge detector), and `(3, 2)` (the degenerate-case check). -/

lemma finRange_three : List.finRange 3 = [0, 1, 2] := by decide

lemma filt0 : (List.finRange 3).filter (fun k => (0 : Fin 3) < k) = [1, 2] := by decide

lemma filt1 : (List.finRange 3).filter (fun k => (1 : Fin 3) < k) = [2] := by decide

lemma filt2 : (List.finRange 3).filter (fun k => (2 : Fin 3) < k) = [] := by decide

lemma gjGo_three {st0 st1 st2 st3 : GJ 3}
    (h0 : gjStep st0 0 = some st1) (h1 : gjStep st1 1 = some st2)
    (h2 : gjStep st2 2 = some st3) :
    gjGo (List.finRange 3) st0 = some st3 := by
  rw [finRange_three]
  simp [gjGo, h0, h1, h2]

/-- The entries of the normal-equations matrix as a sum over row numbers. -/
lemma gram_apply (w p : ℕ) (k j : Fin (p + 1)) :
    gram w p k j = ∑ v ∈ Finset.range (sgRows w),
      (((v : ℤ) - (w / 2 : ℕ) : ℤ) : ℚ) ^ (k : ℕ) * (((v : ℤ) - (w / 2 : ℕ) : ℤ) : ℚ) ^ (j : ℕ) := by
  rw [gram, Matrix.mul_apply]
  simp only [Matrix.transpose_apply, designA]
  exact Fin.sum_univ_eq_sum_range
    (fun v => (((v : ℤ) - (w / 2 : ℕ) : ℤ) : ℚ) ^ (k : ℕ) * (((v : ℤ) - (w / 2 : ℕ) : ℤ) : ℚ) ^ (j : ℕ))
    (sgRows w)

lemma gram_five_two : gram 5 2 = !![(5:ℚ),0,10;0,10,0;10,0,34] := by
  ext k j
  rw [gram_apply]
  fin_cases k <;> fin_cases j <;>
    norm_num [Finset.sum_range_succ, sgRows]

lemma gram_eleven_two : gram 11 2 = !![(11:ℚ),0,110;0,110,0;110,0,1958] := by
  ext k j
  rw [gram_apply]
  fin_cases k <;> fin_cases j <;>
    norm_num [Finset.sum_range_succ, sgRows]

lemma gram_three_two : gram 3 2 = !![(3:ℚ),0,2;0,2,0;2,0,2] := by
  ext k j
  rw [gram_apply]
  fin_cases k <;> fin_cases j <;>
    norm_num [Finset.sum_range_succ, sgRows]

lemma gj52_s0 : gjStep (⟨!![(5:ℚ),0,10;0,10,0;10,0,34], (1 : Matrix (Fin 3) (Fin 3) ℚ)⟩ : GJ 3) 0
    = some ⟨!![(1:ℚ),0,17/5;0,10,0;0,0,-7], !![(0:ℚ),0,1/10;0,1,0;1,0,-1/2]⟩ := by
  have hpiv : pivotSearch (!![(5:ℚ),0,10;0,10,0;10,0,34]) 0 = 2 := by
    rw [pivotSearch, filt0]
    norm_num [List.foldl]
  simp only [gjStep]
  rw [hpiv, if_neg (by norm_num [gjEps, abs_div])]
  refine congrArg some ?_
  have hB : (gjElim (gjScale (gjSwap (⟨!![(5:ℚ),0,10;0,10,0;10,0,34], (1 : Matrix (Fin 3) (Fin 3) ℚ)⟩ : GJ 3) 0 2) 0) 0).B = !![(1:ℚ),0,17/5;0,10,0;0,0,-7] := by
    ext k j
    fin_cases k <;> fin_cases j <;>
      norm_num [gjElim, gjScale, gjSwap, swapIdx, Matrix.one_apply, Fin.ext_iff,
        Matrix.vecHead, Matrix.vecTail]
  have hC : (gjElim (gjScale (gjSwap (⟨!![(5:ℚ),0,10;0,10,0;10,0,34], (1 : Matrix (Fin 3) (Fin 3) ℚ)⟩ : GJ 3) 0 2) 0) 0).C = !![(0:ℚ),0,1/10;0,1,0;1,0,-1/2] := by
    ext k j
    fin_cases k <;> fin_cases j <;>
      norm_num [gjElim, gjScale, gjSwap, swapIdx, Matrix.one_apply, Fin.ext_iff,
        Matrix.vecHead, Matrix.vecTail]
  calc gjElim (gjScale (gjSwap (⟨!![(5:ℚ),0,10;0,10,0;10,0,34], (1 : Matrix (Fin 3) (Fin 3) ℚ)⟩ : GJ 3) 0 2) 0) 0
      = ⟨(gjElim (gjScale (gjSwap (⟨!![(5:ℚ),0,10;0,10,0;10,0,34], (1 : Matrix (Fin 3) (Fin 3) ℚ)⟩ : GJ 3) 0 2) 0) 0).B,
        (gjElim (gjScale (gjSwap (⟨!![(5:ℚ),0,10;0,10,0;10,0,34], (1 : Matrix (Fin 3) (Fin 3) ℚ)⟩ : GJ 3) 0 2) 0) 0).C⟩ := rfl
    _ = _ := by rw [hB, hC]

lemma gj52_s1 : gjStep (⟨!![(1:ℚ),0,17/5;0,10,0;0,0,-7], !![(0:ℚ),0,1/10;0,1,0;1,0,-1/2]⟩ : GJ 3) 1
    = some ⟨!![(1:ℚ),0,17/5;0,1,0;0,0,-7], !![(0:ℚ),0,1/10;0,1/10,0;1,0,-1/2]⟩ := by
  have hpiv : pivotSearch (!![(1:ℚ),0,17/5;0,10,0;0,0,-7]) 1 = 1 := by
    rw [pivotSearch, filt1]
    norm_num [List.foldl]
  simp only [gjStep]
  rw [hpiv, if_neg (by norm_num [gjEps, abs_div])]
  refine congrArg some ?_
  have hB : (gjElim (gjScale (gjSwap (⟨!![(1:ℚ),0,17/5;0,10,0;0,0,-7], !![(0:ℚ),0,1/10;0,1,0;1,0,-1/2]⟩ : GJ 3) 1 1) 1) 1).B = !![(1:ℚ),0,17/5;0,1,0;0,0,-7] := by
    ext k j
    fin_cases k <;> fin_cases j <;>
      norm_num [gjElim, gjScale, gjSwap, swapIdx, Matrix.one_apply, Fin.ext_iff,
        Matrix.vecHead, Matrix.vecTail]
  have hC : (gjElim (gjScale (gjSwap (⟨!![(1:ℚ),0,17/5;0,10,0;0,0,-7], !![(0:ℚ),0,1/10;0,1,0;1,0,-1/2]⟩ : GJ 3) 1 1) 1) 1).C = !![(0:ℚ),0,1/10;0,1/10,0;1,0,-1/2] := by
    ext k j
    fin_cases k <;> fin_cases j <;>
      norm_num [gjElim, gjScale, gjSwap, swapIdx, Matrix.one_apply, Fin.ext_iff,
        Matrix.vecHead, Matrix.vecTail]
  calc gjElim (gjScale (gjSwap (⟨!![(1:ℚ),0,17/5;0,10,0;0,0,-7], !![(0:ℚ),0,1/10;0,1,0;1,0,-1/2]⟩ : GJ 3) 1 1) 1) 1
      = ⟨(gjElim (gjScale (gjSwap (⟨!![(1:ℚ),0,17/5;0,10,0;0,0,-7], !![(0:ℚ),0,1/10;0,1,0;1,0,-1/2]⟩ : GJ 3) 1 1) 1) 1).B,
        (gjElim (gjScale (gjSwap (⟨!![(1:ℚ),0,17/5;0,10,0;0,0,-7], !![(0:ℚ),0,1/10;0,1,0;1,0,-1/2]⟩ : GJ 3) 1 1) 1) 1).C⟩ := rfl
    _ = _ := by rw [hB, hC]

lemma gj52_s2 : gjStep (⟨!![(1:ℚ),0,17/5;0,1,0;0,0,-7], !![(0:ℚ),0,1/10;0,1/10,0;1,0,-1/2]⟩ : GJ 3) 2
    = some ⟨(1 : Matrix (Fin 3) (Fin 3) ℚ), !![(17:ℚ)/35,0,-1/7;0,1/10,0;-1/7,0,1/14]⟩ := by
  have hpiv : pivotSearch (!![(1:ℚ),0,17/5;0,1,0;0,0,-7]) 2 = 2 := by
    rw [pivotSearch, filt2]
    rfl
  simp only [gjStep]
  rw [hpiv, if_neg (by norm_num [gjEps, abs_div])]
  refine congrArg some ?_
  have hB : (gjElim (gjScale (gjSwap (⟨!![(1:ℚ),0,17/5;0,1,0;0,0,-7], !![(0:ℚ),0,1/10;0,1/10,0;1,0,-1/2]⟩ : GJ 3) 2 2) 2) 2).B = (1 : Matrix (Fin 3) (Fin 3) ℚ) := by
    ext k j
    fin_cases k <;> fin_cases j <;>
      norm_num [gjElim, gjScale, gjSwap, swapIdx, Matrix.one_apply, Fin.ext_iff,
        Matrix.vecHead, Matrix.vecTail]
  have hC : (gjElim (gjScale (gjSwap (⟨!![(1:ℚ),0,17/5;0,1,0;0,0,-7], !![(0:ℚ),0,1/10;0,1/10,0;1,0,-1/2]⟩ : GJ 3) 2 2) 2) 2).C = !![(17:ℚ)/35,0,-1/7;0,1/10,0;-1/7,0,1/14] := by
    ext k j
    fin_cases k <;> fin_cases j <;>
      norm_num [gjElim, gjScale, gjSwap, swapIdx, Matrix.one_apply, Fin.ext_iff,
        Matrix.vecHead, Matrix.vecTail]
  calc gjElim (gjScale (gjSwap (⟨!![(1:ℚ),0,17/5;0,1,0;0,0,-7], !![(0:ℚ),0,1/10;0,1/10,0;1,0,-1/2]⟩ : GJ 3) 2 2) 2) 2
      = ⟨(gjElim (gjScale (gjSwap (⟨!![(1:ℚ),0,17/5;0,1,0;0,0,-7], !![(0:ℚ),0,1/10;0,1/10,0;1,0,-1/2]⟩ : GJ 3) 2 2) 2) 2).B,
        (gjElim (gjScale (gjSwap (⟨!![(1:ℚ),0,17/5;0,1,0;0,0,-7], !![(0:ℚ),0,1/10;0,1/10,0;1,0,-1/2]⟩ : GJ 3) 2 2) 2) 2).C⟩ := rfl
    _ = _ := by rw [hB, hC]

lemma inv_five_two : invertMatrix !![(5:ℚ),0,10;0,10,0;10,0,34] = some !![(17:ℚ)/35,0,-1/7;0,1/10,0;-1/7,0,1/14] := by
  rw [invertMatrix, gjGo_three gj52_s0 gj52_s1 gj52_s2]
  rfl

lemma gj112_s0 : gjStep (⟨!![(11:ℚ),0,110;0,110,0;110,0,1958], (1 : Matrix (Fin 3) (Fin 3) ℚ)⟩ : GJ 3) 0
    = some ⟨!![(1:ℚ),0,89/5;0,110,0;0,0,-429/5], !![(0:ℚ),0,1/110;0,1,0;1,0,-1/10]⟩ := by
  have hpiv : pivotSearch (!![(11:ℚ),0,110;0,110,0;110,0,1958]) 0 = 2 := by
    rw [pivotSearch, filt0]
    norm_num [List.foldl]
  simp only [gjStep]
  rw [hpiv, if_neg (by norm_num [gjEps, abs_div])]
  refine congrArg some ?_
  have hB : (gjElim (gjScale (gjSwap (⟨!![(11:ℚ),0,110;0,110,0;110,0,1958], (1 : Matrix (Fin 3) (Fin 3) ℚ)⟩ : GJ 3) 0 2) 0) 0).B = !![(1:ℚ),0,89/5;0,110,0;0,0,-429/5] := by
    ext k j
    fin_cases k <;> fin_cases j <;>
      norm_num [gjElim, gjScale, gjSwap, swapIdx, Matrix.one_apply, Fin.ext_iff,
        Matrix.vecHead, Matrix.vecTail]
  have hC : (gjElim (gjScale (gjSwap (⟨!![(11:ℚ),0,110;0,110,0;110,0,1958], (1 : Matrix (Fin 3) (Fin 3) ℚ)⟩ : GJ 3) 0 2) 0) 0).C = !![(0:ℚ),0,1/110;0,1,0;1,0,-1/10] := by
    ext k j
    fin_cases k <;> fin_cases j <;>
      norm_num [gjElim, gjScale, gjSwap, swapIdx, Matrix.one_apply, Fin.ext_iff,
        Matrix.vecHead, Matrix.vecTail]
  calc gjElim (gjScale (gjSwap (⟨!![(11:ℚ),0,110;0,110,0;110,0,1958], (1 : Matrix (Fin 3) (Fin 3) ℚ)⟩ : GJ 3) 0 2) 0) 0
      = ⟨(gjElim (gjScale (gjSwap (⟨!![(11:ℚ),0,110;0,110,0;110,0,1958], (1 : Matrix (Fin 3) (Fin 3) ℚ)⟩ : GJ 3) 0 2) 0) 0).B,
        (gjElim (gjScale (gjSwap (⟨!![(11:ℚ),0,110;0,110,0;110,0,1958], (1 : Matrix (Fin 3) (Fin 3) ℚ)⟩ : GJ 3) 0 2) 0) 0).C⟩ := rfl
    _ = _ := by rw [hB, hC]

lemma gj112_s1 : gjStep (⟨!![(1:ℚ),0,89/5;0,110,0;0,0,-429/5], !![(0:ℚ),0,1/110;0,1,0;1,0,-1/10]⟩ : GJ 3) 1
    = some ⟨!![(1:ℚ),0,89/5;0,1,0;0,0,-429/5], !![(0:ℚ),0,1/110;0,1/110,0;1,0,-1/10]⟩ := by
  have hpiv : pivotSearch (!![(1:ℚ),0,89/5;0,110,0;0,0,-429/5]) 1 = 1 := by
    rw [pivotSearch, filt1]
    norm_num [List.foldl]
  simp only [gjStep]
  rw [hpiv, if_neg (by norm_num [gjEps, abs_div])]
  refine congrArg some ?_
  have hB : (gjElim (gjScale (gjSwap (⟨!![(1:ℚ),0,89/5;0,110,0;0,0,-429/5], !![(0:ℚ),0,1/110;0,1,0;1,0,-1/10]⟩ : GJ 3) 1 1) 1) 1).B = !![(1:ℚ),0,89/5;0,1,0;0,0,-429/5] := by
    ext k j
    fin_cases k <;> fin_cases j <;>
      norm_num [gjElim, gjScale, gjSwap, swapIdx, Matrix.one_apply, Fin.ext_iff,
        Matrix.vecHead, Matrix.vecTail]
  have hC : (gjElim (gjScale (gjSwap (⟨!![(1:ℚ),0,89/5;0,110,0;0,0,-429/5], !![(0:ℚ),0,1/110;0,1,0;1,0,-1/10]⟩ : GJ 3) 1 1) 1) 1).C = !![(0:ℚ),0,1/110;0,1/110,0;1,0,-1/10] := by
    ext k j
    fin_cases k <;> fin_cases j <;>
      norm_num [gjElim, gjScale, gjSwap, swapIdx, Matrix.one_apply, Fin.ext_iff,
        Matrix.vecHead, Matrix.vecTail]
  calc gjElim (gjScale (gjSwap (⟨!![(1:ℚ),0,89/5;0,110,0;0,0,-429/5], !![(0:ℚ),0,1/110;0,1,0;1,0,-1/10]⟩ : GJ 3) 1 1) 1) 1
      = ⟨(gjElim (gjScale (gjSwap (⟨!![(1:ℚ),0,89/5;0,110,0;0,0,-429/5], !![(0:ℚ),0,1/110;0,1,0;1,0,-1/10]⟩ : GJ 3) 1 1) 1) 1).B,
        (gjElim (gjScale (gjSwap (⟨!![(1:ℚ),0,89/5;0,110,0;0,0,-429/5], !![(0:ℚ),0,1/110;0,1,0;1,0,-1/10]⟩ : GJ 3) 1 1) 1) 1).C⟩ := rfl
    _ = _ := by rw [hB, hC]

lemma gj112_s2 : gjStep (⟨!![(1:ℚ),0,89/5;0,1,0;0,0,-429/5], !![(0:ℚ),0,1/110;0,1/110,0;1,0,-1/10]⟩ : GJ 3) 2
    = some ⟨(1 : Matrix (Fin 3) (Fin 3) ℚ), !![(89:ℚ)/429,0,-5/429;0,1/110,0;-5/429,0,1/858]⟩ := by
  have hpiv : pivotSearch (!![(1:ℚ),0,89/5;0,1,0;0,0,-429/5]) 2 = 2 := by
    rw [pivotSearch, filt2]
    rfl
  simp only [gjStep]
  rw [hpiv, if_neg (by norm_num [gjEps, abs_div])]
  refine congrArg some ?_
  have hB : (gjElim (gjScale (gjSwap (⟨!![(1:ℚ),0,89/5;0,1,0;0,0,-429/5], !![(0:ℚ),0,1/110;0,1/110,0;1,0,-1/10]⟩ : GJ 3) 2 2) 2) 2).B = (1 : Matrix (Fin 3) (Fin 3) ℚ) := by
    ext k j
    fin_cases k <;> fin_cases j <;>
      norm_num [gjElim, gjScale, gjSwap, swapIdx, Matrix.one_apply, Fin.ext_iff,
        Matrix.vecHead, Matrix.vecTail]
  have hC : (gjElim (gjScale (gjSwap (⟨!![(1:ℚ),0,89/5;0,1,0;0,0,-429/5], !![(0:ℚ),0,1/110;0,1/110,0;1,0,-1/10]⟩ : GJ 3) 2 2) 2) 2).C = !![(89:ℚ)/429,0,-5/429;0,1/110,0;-5/429,0,1/858] := by
    ext k j
    fin_cases k <;> fin_cases j <;>
      norm_num [gjElim, gjScale, gjSwap, swapIdx, Matrix.one_apply, Fin.ext_iff,
        Matrix.vecHead, Matrix.vecTail]
  calc gjElim (gjScale (gjSwap (⟨!![(1:ℚ),0,89/5;0,1,0;0,0,-429/5], !![(0:ℚ),0,1/110;0,1/110,0;1,0,-1/10]⟩ : GJ 3) 2 2) 2) 2
      = ⟨(gjElim (gjScale (gjSwap (⟨!![(1:ℚ),0,89/5;0,1,0;0,0,-429/5], !![(0:ℚ),0,1/110;0,1/110,0;1,0,-1/10]⟩ : GJ 3) 2 2) 2) 2).B,
        (gjElim (gjScale (gjSwap (⟨!![(1:ℚ),0,89/5;0,1,0;0,0,-429/5], !![(0:ℚ),0,1/110;0,1/110,0;1,0,-1/10]⟩ : GJ 3) 2 2) 2) 2).C⟩ := rfl
    _ = _ := by rw [hB, hC]

lemma inv_eleven_two : invertMatrix !![(11:ℚ),0,110;0,110,0;110,0,1958] = some !![(89:ℚ)/429,0,-5/429;0,1/110,0;-5/429,0,1/858] := by
  rw [invertMatrix, gjGo_three gj112_s0 gj112_s1 gj112_s2]
  rfl

lemma gj32_s0 : gjStep (⟨!![(3:ℚ),0,2;0,2,0;2,0,2], (1 : Matrix (Fin 3) (Fin 3) ℚ)⟩ : GJ 3) 0
    = some ⟨!![(1:ℚ),0,2/3;0,2,0;0,0,2/3], !![(1:ℚ)/3,0,0;0,1,0;-2/3,0,1]⟩ := by
  have hpiv : pivotSearch (!![(3:ℚ),0,2;0,2,0;2,0,2]) 0 = 0 := by
    rw [pivotSearch, filt0]
    norm_num [List.foldl]
  simp only [gjStep]
  rw [hpiv, if_neg (by norm_num [gjEps, abs_div])]
  refine congrArg some ?_
  have hB : (gjElim (gjScale (gjSwap (⟨!![(3:ℚ),0,2;0,2,0;2,0,2], (1 : Matrix (Fin 3) (Fin 3) ℚ)⟩ : GJ 3) 0 0) 0) 0).B = !![(1:ℚ),0,2/3;0,2,0;0,0,2/3] := by
    ext k j
    fin_cases k <;> fin_cases j <;>
      norm_num [gjElim, gjScale, gjSwap, swapIdx, Matrix.one_apply, Fin.ext_iff,
        Matrix.vecHead, Matrix.vecTail]
  have hC : (gjElim (gjScale (gjSwap (⟨!![(3:ℚ),0,2;0,2,0;2,0,2], (1 : Matrix (Fin 3) (Fin 3) ℚ)⟩ : GJ 3) 0 0) 0) 0).C = !![(1:ℚ)/3,0,0;0,1,0;-2/3,0,1] := by
    ext k j
    fin_cases k <;> fin_cases j <;>
      norm_num [gjElim, gjScale, gjSwap, swapIdx, Matrix.one_apply, Fin.ext_iff,
        Matrix.vecHead, Matrix.vecTail]
  calc gjElim (gjScale (gjSwap (⟨!![(3:ℚ),0,2;0,2,0;2,0,2], (1 : Matrix (Fin 3) (Fin 3) ℚ)⟩ : GJ 3) 0 0) 0) 0
      = ⟨(gjElim (gjScale (gjSwap (⟨!![(3:ℚ),0,2;0,2,0;2,0,2], (1 : Matrix (Fin 3) (Fin 3) ℚ)⟩ : GJ 3) 0 0) 0) 0).B,
        (gjElim (gjScale (gjSwap (⟨!![(3:ℚ),0,2;0,2,0;2,0,2], (1 : Matrix (Fin 3) (Fin 3) ℚ)⟩ : GJ 3) 0 0) 0) 0).C⟩ := rfl
    _ = _ := by rw [hB, hC]

lemma gj32_s1 : gjStep (⟨!![(1:ℚ),0,2/3;0,2,0;0,0,2/3], !![(1:ℚ)/3,0,0;0,1,0;-2/3,0,1]⟩ : GJ 3) 1
    = some ⟨!![(1:ℚ),0,2/3;0,1,0;0,0,2/3], !![(1:ℚ)/3,0,0;0,1/2,0;-2/3,0,1]⟩ := by
  have hpiv : pivotSearch (!![(1:ℚ),0,2/3;0,2,0;0,0,2/3]) 1 = 1 := by
    rw [pivotSearch, filt1]
    norm_num [List.foldl]
  simp only [gjStep]
  rw [hpiv, if_neg (by norm_num [gjEps, abs_div])]
  refine congrArg some ?_
  have hB : (gjElim (gjScale (gjSwap (⟨!![(1:ℚ),0,2/3;0,2,0;0,0,2/3], !![(1:ℚ)/3,0,0;0,1,0;-2/3,0,1]⟩ : GJ 3) 1 1) 1) 1).B = !![(1:ℚ),0,2/3;0,1,0;0,0,2/3] := by
    ext k j
    fin_cases k <;> fin_cases j <;>
      norm_num [gjElim, gjScale, gjSwap, swapIdx, Matrix.one_apply, Fin.ext_iff,
        Matrix.vecHead, Matrix.vecTail]
  have hC : (gjElim (gjScale (gjSwap (⟨!![(1:ℚ),0,2/3;0,2,0;0,0,2/3], !![(1:ℚ)/3,0,0;0,1,0;-2/3,0,1]⟩ : GJ 3) 1 1) 1) 1).C = !![(1:ℚ)/3,0,0;0,1/2,0;-2/3,0,1] := by
    ext k j
    fin_cases k <;> fin_cases j <;>
      norm_num [gjElim, gjScale, gjSwap, swapIdx, Matrix.one_apply, Fin.ext_iff,
        Matrix.vecHead, Matrix.vecTail]
  calc gjElim (gjScale (gjSwap (⟨!![(1:ℚ),0,2/3;0,2,0;0,0,2/3], !![(1:ℚ)/3,0,0;0,1,0;-2/3,0,1]⟩ : GJ 3) 1 1) 1) 1
      = ⟨(gjElim (gjScale (gjSwap (⟨!![(1:ℚ),0,2/3;0,2,0;0,0,2/3], !![(1:ℚ)/3,0,0;0,1,0;-2/3,0,1]⟩ : GJ 3) 1 1) 1) 1).B,
        (gjElim (gjScale (gjSwap (⟨!![(1:ℚ),0,2/3;0,2,0;0,0,2/3], !![(1:ℚ)/3,0,0;0,1,0;-2/3,0,1]⟩ : GJ 3) 1 1) 1) 1).C⟩ := rfl
    _ = _ := by rw [hB, hC]

lemma gj32_s2 : gjStep (⟨!![(1:ℚ),0,2/3;0,1,0;0,0,2/3], !![(1:ℚ)/3,0,0;0,1/2,0;-2/3,0,1]⟩ : GJ 3) 2
    = some ⟨(1 : Matrix (Fin 3) (Fin 3) ℚ), !![(1:ℚ),0,-1;0,1/2,0;-1,0,3/2]⟩ := by
  have hpiv : pivotSearch (!![(1:ℚ),0,2/3;0,1,0;0,0,2/3]) 2 = 2 := by
    rw [pivotSearch, filt2]
    rfl
  simp only [gjStep]
  rw [hpiv, if_neg (by norm_num [gjEps, abs_div])]
  refine congrArg some ?_
  have hB : (gjElim (gjScale (gjSwap (⟨!![(1:ℚ),0,2/3;0,1,0;0,0,2/3], !![(1:ℚ)/3,0,0;0,1/2,0;-2/3,0,1]⟩ : GJ 3) 2 2) 2) 2).B = (1 : Matrix (Fin 3) (Fin 3) ℚ) := by
    ext k j
    fin_cases k <;> fin_cases j <;>
      norm_num [gjElim, gjScale, gjSwap, swapIdx, Matrix.one_apply, Fin.ext_iff,
        Matrix.vecHead, Matrix.vecTail]
  have hC : (gjElim (gjScale (gjSwap (⟨!![(1:ℚ),0,2/3;0,1,0;0,0,2/3], !![(1:ℚ)/3,0,0;0,1/2,0;-2/3,0,1]⟩ : GJ 3) 2 2) 2) 2).C = !![(1:ℚ),0,-1;0,1/2,0;-1,0,3/2] := by
    ext k j
    fin_cases k <;> fin_cases j <;>
      norm_num [gjElim, gjScale, gjSwap, swapIdx, Matrix.one_apply, Fin.ext_iff,
        Matrix.vecHead, Matrix.vecTail]
  calc gjElim (gjScale (gjSwap (⟨!![(1:ℚ),0,2/3;0,1,0;0,0,2/3], !![(1:ℚ)/3,0,0;0,1/2,0;-2/3,0,1]⟩ : GJ 3) 2 2) 2) 2
      = ⟨(gjElim (gjScale (gjSwap (⟨!![(1:ℚ),0,2/3;0,1,0;0,0,2/3], !![(1:ℚ)/3,0,0;0,1/2,0;-2/3,0,1]⟩ : GJ 3) 2 2) 2) 2).B,
        (gjElim (gjScale (gjSwap (⟨!![(1:ℚ),0,2/3;0,1,0;0,0,2/3], !![(1:ℚ)/3,0,0;0,1/2,0;-2/3,0,1]⟩ : GJ 3) 2 2) 2) 2).C⟩ := rfl
    _ = _ := by rw [hB, hC]

lemma inv_three_two : invertMatrix !![(3:ℚ),0,2;0,2,0;2,0,2] = some !![(1:ℚ),0,-1;0,1/2,0;-1,0,3/2] := by
  rw [invertMatrix, gjGo_three gj32_s0 gj32_s1 gj32_s2]
  rfl

/-- The concrete smoothing coefficients for `windowSize 5, polyOrder 2`. -/
def c5list : List ℚ := [-3/35, 12/35, 17/35, 12/35, -3/35]

/-- The coefficients `c5list` as the coefficient vector of the kernel. -/
def c5vec : Fin 5 → ℚ := fun j => c5list.getD j 0

/-- The concrete smoothing coefficients for `windowSize 11, polyOrder 2`
(the fixed smoothing parameters of the jump-edge detector). -/
def c11list : List ℚ :=
  [-12/143, 3/143, 4/39, 23/143, 28/143, 89/429, 28/143, 23/143, 4/39, 3/143, -12/143]

/-- The coefficients `c11list` as the coefficient vector of the kernel. -/
def c11vec : Fin 11 → ℚ := fun j => c11list.getD j 0

lemma sgCoeffs_five_two : sgCoeffs 5 2 = some c5vec := by
  rw [sgCoeffs, gram_five_two, inv_five_two]
  simp only [Option.map_some']
  refine congrArg some ?_
  funext j
  rw [Matrix.mul_apply]
  fin_cases j <;>
    norm_num [Matrix.transpose_apply, designA, Fin.sum_univ_three, c5vec, c5list,
      List.getD, sgRows, Fin.ext_iff]

lemma sgCoeffs_eleven_two : sgCoeffs 11 2 = some c11vec := by
  rw [sgCoeffs, gram_eleven_two, inv_eleven_two]
  simp only [Option.map_some']
  refine congrArg some ?_
  funext j
  rw [Matrix.mul_apply]
  fin_cases j <;>
    norm_num [Matrix.transpose_apply, designA, Fin.sum_univ_three, c11vec, c11list,
      List.getD, sgRows, Fin.ext_iff]

/-- Evaluation form of the convolution for a list-backed coefficient vector:
the window dot product as a sum over natural numbers. -/
lemma convolve_eval (R : ℕ) (cl : List ℚ) (data : List ℚ) :
    convolve R (fun j => cl.getD j 0) data = (List.range data.length).map fun (i : ℕ) =>
      ∑ v ∈ Finset.range R,
        data.getD (clampIdx data.length ((i : ℤ) + (v : ℤ) - (R / 2 : ℕ))) 0 * cl.getD v 0 := by
  unfold convolve
  refine congrArg (fun f => List.map f (List.range data.length)) (funext fun i => ?_)
  exact Fin.sum_univ_eq_sum_range
    (fun v => data.getD (clampIdx data.length ((i : ℤ) + (v : ℤ) - (R / 2 : ℕ))) 0 * cl.getD v 0) R

lemma normW_five : normW 5 = 5 := by norm_num [normW]

lemma normP_five_two : normP 5 2 = 2 := by norm_num [normP]

/-- Witness for C1 at `windowSize 5, polyOrder 2`: the derived coefficient
vector exists, sums to 1, and a concrete constant sequence is fixed. -/
theorem claimC1_witness :
    (sgCoeffs (normW 5) (normP (normW 5) 2) = some c5vec ∧ ∑ j, c5vec j = 1)
    ∧ savitzkyGolay (List.replicate 3 7) 5 2 = List.replicate 3 7 := by
  have hn : sgCoeffs (normW 5) (normP (normW 5) 2) = some c5vec := sgCoeffs_five_two
  exact ⟨⟨hn, (claimC1 5 2).1 c5vec hn⟩, (claimC1 5 2).2 3 7⟩

/-- The full smoothing run of the §8 scenario `windowSize 5, polyOrder 2`
on `[1, 2, 3, 4, 5]`: exact output values. -/
lemma sg_one_to_five : savitzkyGolay [1, 2, 3, 4, 5] 5 2
    = [41/35, 67/35, 3, 143/35, 169/35] := by
  have hp : normP (normW 5) 2 = 2 := normP_five_two
  have h5 : sgCoeffs (normW 5) 2 = some c5vec := sgCoeffs_five_two
  simp only [savitzkyGolay, hp, h5]
  rw [if_neg (by norm_num)]
  refine (convolve_eval (sgRows (normW 5)) c5list [1, 2, 3, 4, 5]).trans ?_
  norm_num [sgRows, normW, clampIdx, c5list, List.getD, Finset.sum_range_succ,
    show List.range 5 = [0, 1, 2, 3, 4] from rfl]
  simp only [Int.reduceToNat, List.getElem_cons_zero, List.getElem_cons_succ]
  norm_num

/-- Claim C2 (as stated) is false: the smoothing output differs from the
input at the clamped boundary index 0. -/
theorem claimC2_counterexample :
    savitzkyGolay [1, 2, 3, 4, 5] 5 2 ≠ [1, 2, 3, 4, 5] := by
  rw [sg_one_to_five]
  simp only [ne_eq, List.cons.injEq, not_and]
  intro h
  norm_num at h

/-- Claim C2, amended: with `windowSize 5, polyOrder 2` on `[1,2,3,4,5]`,
the output agrees with the input only at the interior index 2 (value 3);
the four edge-clamped outputs are `41/35, 67/35, 143/35, 169/35`. -/
theorem claimC2_amended :
    savitzkyGolay [1, 2, 3, 4, 5] 5 2 = [41/35, 67/35, 3, 143/35, 169/35] :=
  sg_one_to_five

/-! ## Degenerate-matrix fallbacks (claims C3 and C9) -/

lemma finRange_one : List.finRange 1 = [0] := by decide

lemma filt_one : (List.finRange 1).filter (fun k => (0 : Fin 1) < k) = [] := by decide

/-- Gauss–Jordan on a non-degenerate `1 × 1` matrix. -/
lemma inv_one {x : ℚ} (hx : ¬ |x| < gjEps) : invertMatrix !![x] = some !![1 / x] := by
  have hpiv : pivotSearch (!![x]) 0 = 0 := by
    rw [pivotSearch, filt_one]
    rfl
  have hstep : gjStep (⟨!![x], 1⟩ : GJ 1) 0
      = some (gjElim (gjScale (gjSwap (⟨!![x], 1⟩ : GJ 1) 0 0) 0) 0) := by
    simp only [gjStep]
    rw [hpiv, if_neg (show ¬ |(!![x] : Matrix (Fin 1) (Fin 1) ℚ) 0 0| < gjEps by simpa using hx)]
  rw [invertMatrix, finRange_one]
  simp only [gjGo, hstep, Option.some_bind, Option.map_some']
  refine congrArg some ?_
  ext k j
  fin_cases k
  fin_cases j
  norm_num [gjElim, gjScale, gjSwap, swapIdx, Matrix.one_apply]

/-- With `polyOrder 0` the normal-equations matrix is the `1 × 1` matrix
holding the number of window rows. -/
lemma gram_p0 (w : ℕ) : gram w 0 = !![(sgRows w : ℚ)] := by
  ext k j
  fin_cases k
  fin_cases j
  rw [gram_apply]
  simp [Finset.sum_const, Finset.card_range]

/-- The `polyOrder 0` inversion always succeeds (never degenerate). -/
lemma inv_gram_p0 (w : ℕ) : invertMatrix (gram w 0) = some !![1 / (sgRows w : ℚ)] := by
  rw [gram_p0]
  refine inv_one ?_
  have h1 : 1 ≤ sgRows w := by unfold sgRows; omega
  have h1q : (1 : ℚ) ≤ (sgRows w : ℚ) := by exact_mod_cast h1
  rw [abs_of_nonneg (by linarith), not_lt]
  calc gjEps ≤ 1 := by norm_num [gjEps]
    _ ≤ (sgRows w : ℚ) := h1q

/-- Claim C3: whenever the Gauss–Jordan inversion of the normal-equations
matrix is degenerate (a pivot of magnitude below `1e-15`), no exception
escapes the kernel: the smoothing path returns the input sequence
unchanged and the derivative path returns an all-zero sequence of the
input's length; and for `windowSize 3, polyOrder 2` the inversion in fact
succeeds and the derivative path always returns a result (no unhandled
exception). -/
theorem claimC3 :
    (∀ (data : List ℚ) (w p : ℕ),
      savitzkyGolay data w p = data ∨ (sgCoeffs (normW w) (normP (normW w) p)).isSome = true)
    ∧ (∀ (t s : List ℚ) (w p : ℕ),
      calculateDerivativeSG t s w p = some (List.replicate s.length 0)
        ∨ (invertMatrix (gram w p)).isSome = true)
    ∧ (sgCoeffs (normW 3) (normP (normW 3) 2)).isSome = true
    ∧ ∀ (t s : List ℚ), (calculateDerivativeSG t s 3 2).isSome = true := by
  refine ⟨?_, ?_, ?_, ?_⟩
  · intro data w p
    simp only [savitzkyGolay]
    by_cases hn : data.length = 0
    · rw [if_pos hn]
      exact Or.inl (List.length_eq_zero.mp hn).symm
    · rw [if_neg hn]
      cases hco : sgCoeffs (normW w) (normP (normW w) p) with
      | none => exact Or.inl rfl
      | some c => exact Or.inr rfl
  · intro t s w p
    simp only [calculateDerivativeSG]
    by_cases hn : s.length < 3
    · rw [if_pos hn]
      exact Or.inl rfl
    · rw [if_neg hn]
      cases hinv : invertMatrix (gram w p) with
      | none => exact Or.inl rfl
      | some inv => exact Or.inr rfl
  · have h32 : sgCoeffs (normW 3) (normP (normW 3) 2) = some (fun j =>
        ((!![(1:ℚ),0,-1;0,1/2,0;-1,0,3/2]) * Matrix.transpose (designA 3 2)) 0 j) := by
      show sgCoeffs 3 2 = _
      rw [sgCoeffs, gram_three_two, inv_three_two]
      rfl
    rw [h32]
    rfl
  · intro t s
    simp only [calculateDerivativeSG]
    by_cases hn : s.length < 3
    · rw [if_pos hn]
      rfl
    · rw [if_neg hn]
      rw [show invertMatrix (gram 3 2) = some !![(1:ℚ),0,-1;0,1/2,0;-1,0,3/2] from by
        rw [gram_three_two]; exact inv_three_two]
      rfl

/-- Claim C9 (as stated) is false: the derivative path performs no
parameter normalization, and `polyOrder = 0` makes `ATAinvAT[1]`
undefined, so the subsequent indexing throws an uncaught exception
(embedded as `none`) on a 3-sample input with `windowSize 3`. -/
theorem claimC9_counterexample :
    calculateDerivativeSG [0, 1, 2] [1, 2, 3] 3 0 = none := by
  simp only [calculateDerivativeSG]
  rw [if_neg (by norm_num), inv_gram_p0]
  rfl

/-- Claim C9, amended: the smoothing path does normalize (window forced
odd and at least 3, order forced into `[1, windowSize)`), and for every
`polyOrder ≥ 1` the derivative path returns a result; but the derivative
path itself performs no normalization: with `polyOrder = 0` and at least
3 samples it raises an uncaught exception (`none`) instead of recovering. -/
theorem claimC9_amended :
    (∀ w p : ℕ, 3 ≤ normW w ∧ normW w % 2 = 1
      ∧ 1 ≤ normP (normW w) p ∧ normP (normW w) p < normW w)
    ∧ (∀ (t s : List ℚ) (w p : ℕ), (calculateDerivativeSG t s w p).isSome = true ∨ p = 0)
    ∧ (∀ (t s : List ℚ) (w : ℕ), calculateDerivativeSG t s w 0 = none ∨ s.length < 3) := by
  refine ⟨?_, ?_, ?_⟩
  · intro w p
    simp only [normW, normP]
    split_ifs <;> omega
  · intro t s w p
    cases p with
    | zero => exact Or.inr rfl
    | succ q =>
      refine Or.inl ?_
      simp only [calculateDerivativeSG]
      by_cases hn : s.length < 3
      · rw [if_pos hn]
        rfl
      · rw [if_neg hn]
        cases hinv : invertMatrix (gram w (q + 1)) with
        | none => rfl
        | some inv =>
          dsimp only
          rw [dif_pos (show (1:ℕ) < q + 1 + 1 by omega)]
          rfl
  · intro t s w
    by_cases hn : s.length < 3
    · exact Or.inr hn
    · refine Or.inl ?_
      simp only [calculateDerivativeSG]
      rw [if_neg hn, inv_gram_p0]
      rfl

/-- Claim C10: the jump-edge detector returns no hint (`null`) whenever
the two input arrays have different lengths or fewer than 3 elements. -/
theorem claimC10 (t s : List ℚ)
    (h : t.length ≠ s.length ∨ t.length < 3 ∨ s.length < 3) :
    findLargestJumpStart t s = none := by
  simp only [findLargestJumpStart]
  rw [if_pos ?_]
  rcases h with h | h | h
  · exact Or.inr h
  · exact Or.inl h
  · by_cases ht : t.length = s.length
    · exact Or.inl (by omega)
    · exact Or.inr ht

/-- Witness for C10 at a concrete length-mismatched input. -/
theorem claimC10_witness : findLargestJumpStart [1, 2] [3] = none :=
  claimC10 [1, 2] [3] (Or.inl (by norm_num))

/-! ## Properties of the de-duplication pass (claim C7) -/

/-- The inner sweep keeps a subsequence of its input. -/
lemma dedupeGo_sublist (d : ℚ) : ∀ (l : List (ℚ × ℚ)) (last : ℚ),
    (dedupeGo d last l).Sublist l := by
  intro l
  induction l with
  | nil => intro last; simp [dedupeGo]
  | cons q rest ih =>
    intro last
    simp only [dedupeGo]
    by_cases h : d ≤ q.1 - last
    · rw [if_pos h]
      exact (ih q.1).cons₂ q
    · rw [if_neg h]
      exact (ih last).cons q

/-- One pass keeps a subsequence of its input. -/
lemma dedupePass_sublist (d : ℚ) (l : List (ℚ × ℚ)) : (dedupePass d l).Sublist l := by
  cases l with
  | nil => simp [dedupePass]
  | cons q rest => exact (dedupeGo_sublist d rest q.1).cons₂ q

/-- Every point kept by the sweep is at least `d` after the previous kept
point (the anchor included). -/
lemma dedupeGo_chain (d : ℚ) : ∀ (l : List (ℚ × ℚ)) (a : ℚ × ℚ),
    List.Chain (fun x y : ℚ × ℚ => d ≤ y.1 - x.1) a (dedupeGo d a.1 l) := by
  intro l
  induction l with
  | nil => intro a; simp [dedupeGo]
  | cons q rest ih =>
    intro a
    simp only [dedupeGo]
    by_cases h : d ≤ q.1 - a.1
    · rw [if_pos h]
      exact List.Chain.cons h (ih q)
    · rw [if_neg h]
      exact ih a


/-- The sweep does not drop anything from an already-separated list. -/
lemma dedupeGo_stable (d : ℚ) : ∀ (l : List (ℚ × ℚ)) (a : ℚ × ℚ),
    List.Chain (fun x y : ℚ × ℚ => d ≤ y.1 - x.1) a l → dedupeGo d a.1 l = l := by
  intro l
  induction l with
  | nil => intro a _; rfl
  | cons q rest ih =>
    intro a ha
    rw [List.chain_cons] at ha
    simp only [dedupeGo, if_pos ha.1]
    rw [ih q ha.2]

/-- One pass produces a list whose consecutive kept points are at least
`d` apart. -/
lemma dedupePass_chain (d : ℚ) (l : List (ℚ × ℚ)) :
    List.Chain' (fun x y : ℚ × ℚ => d ≤ y.1 - x.1) (dedupePass d l) := by
  cases l with
  | nil => simp [dedupePass]
  | cons q rest => exact dedupeGo_chain d rest q

/-- One pass fixes an already-separated list. -/
lemma dedupePass_stable (d : ℚ) (l : List (ℚ × ℚ))
    (h : List.Chain' (fun x y : ℚ × ℚ => d ≤ y.1 - x.1) l) : dedupePass d l = l := by
  cases l with
  | nil => rfl
  | cons q rest =>
    simp only [dedupePass]
    rw [dedupeGo_stable d rest q h]

/-- A pass of unchanged length changed nothing. -/
lemma dedupePass_of_length (d : ℚ) (l : List (ℚ × ℚ))
    (h : (dedupePass d l).length = l.length) : dedupePass d l = l :=
  (dedupePass_sublist d l).eq_of_length h

/-- Unfolding of one loop iteration. -/
lemma dedupeLoop_succ (d : ℚ) (fuel : ℕ) (cur : List (ℚ × ℚ)) :
    dedupeLoop d (fuel + 1) cur =
      if (dedupePass d cur).length = cur.length then cur
      else dedupeLoop d fuel (dedupePass d cur) := rfl

/-- The capped loop always equals a single pass: the pass is idempotent, so
the loop stabilizes at the second iteration at the latest. -/
lemma dedupeLoop_eq_pass (d : ℚ) (l : List (ℚ × ℚ)) :
    dedupeLoop d 10 l = dedupePass d l := by
  rw [show (10 : ℕ) = 9 + 1 from rfl, dedupeLoop_succ]
  by_cases h : (dedupePass d l).length = l.length
  · rw [if_pos h]
    exact (dedupePass_of_length d l h).symm
  · rw [if_neg h]
    rw [show (9 : ℕ) = 8 + 1 from rfl, dedupeLoop_succ]
    rw [dedupePass_stable d _ (dedupePass_chain d l), if_pos rfl]

/-- Claim C7: the de-duplication pass keeps no two consecutive points
closer than the minimum distance, is idempotent (running it on its own
output returns that output unchanged), and the 10-iteration cap never
binds: the whole function equals a single left-to-right sweep. -/
theorem claimC7 (t0 y0 : List ℚ) (d : ℚ) :
    List.Chain' (fun a b : ℚ => d ≤ b - a) (filterClosePoints t0 y0 d).1
    ∧ filterClosePoints (filterClosePoints t0 y0 d).1 (filterClosePoints t0 y0 d).2 d
        = filterClosePoints t0 y0 d
    ∧ (1 < t0.length →
        filterClosePoints t0 y0 d
          = ((dedupePass d (t0.zip y0)).map Prod.fst, (dedupePass d (t0.zip y0)).map Prod.snd)) := by
  by_cases hlen : t0.length ≤ 1
  · have hfc : filterClosePoints t0 y0 d = (t0, y0) := by
      simp only [filterClosePoints, if_pos hlen]
    refine ⟨?_, ?_, ?_⟩
    · rw [hfc]
      match t0, hlen with
      | [], _ => simp
      | [x], _ => simp
    · rw [hfc]
      exact hfc
    · intro hcon
      omega
  · have hout : filterClosePoints t0 y0 d
        = ((dedupePass d (t0.zip y0)).map Prod.fst, (dedupePass d (t0.zip y0)).map Prod.snd) := by
      simp only [filterClosePoints, if_neg hlen]
      rw [dedupeLoop_eq_pass]
    have hchain := dedupePass_chain d (t0.zip y0)
    refine ⟨?_, ?_, ?_⟩
    · rw [hout]
      exact (List.chain'_map _).mpr
        (hchain.imp (fun a b hab => hab))
    · rw [hout]
      simp only [filterClosePoints]
      by_cases h1 : ((dedupePass d (t0.zip y0)).map Prod.fst).length ≤ 1
      · rw [if_pos h1]
      · rw [if_neg h1]
        have hzip : ((dedupePass d (t0.zip y0)).map Prod.fst).zip
            ((dedupePass d (t0.zip y0)).map Prod.snd) = dedupePass d (t0.zip y0) := by
          rw [List.zip_map']
          simp
        rw [hzip, dedupeLoop_eq_pass, dedupePass_stable d _ hchain]
    · intro _
      exact hout

/-- Witness for C7 at a concrete root list: `1/4` is dropped (closer than
`1/2` to `0`), `1` is kept, and all three properties hold there. -/
theorem claimC7_witness :
    List.Chain' (fun a b : ℚ => (1:ℚ)/2 ≤ b - a) (filterClosePoints [0, 1/4, 1] [5, 6, 7] (1/2)).1
    ∧ filterClosePoints (filterClosePoints [0, 1/4, 1] [5, 6, 7] (1/2)).1
        (filterClosePoints [0, 1/4, 1] [5, 6, 7] (1/2)).2 (1/2)
        = filterClosePoints [0, 1/4, 1] [5, 6, 7] (1/2)
    ∧ filterClosePoints [0, 1/4, 1] [5, 6, 7] (1/2)
        = ((dedupePass (1/2) ([0, 1/4, 1].zip [5, 6, 7])).map Prod.fst,
           (dedupePass (1/2) ([0, 1/4, 1].zip [5, 6, 7])).map Prod.snd) := by
  obtain ⟨h1, h2, h3⟩ := claimC7 [0, 1/4, 1] [5, 6, 7] (1/2)
  exact ⟨h1, h2, h3 (by norm_num)⟩

/-! ## Characterization of the intersection finder (claim C6)

The spec-side definitions below transcribe the claim's wording: the
sign-change condition, the linearly interpolated crossing time, and the
midpoint-average amplitude. -/

/-- The claim's sign-change condition at the adjacent index pair
`(i-1, i)`: `diffPrev ≤ 0 < diffCurr` or `diffPrev ≥ 0 > diffCurr`. -/
def specCrossing (tenz interf : List ℚ) (i : ℕ) : Prop :=
  (tenz.getD (i-1) 0 - interf.getD (i-1) 0 ≤ 0 ∧ 0 < tenz.getD i 0 - interf.getD i 0)
  ∨ (0 ≤ tenz.getD (i-1) 0 - interf.getD (i-1) 0 ∧ tenz.getD i 0 - interf.getD i 0 < 0)

/-- The claim's interpolation weight at the pair `(i-1, i)`. -/
def specLam (tenz interf : List ℚ) (i : ℕ) : ℚ :=
  -(tenz.getD (i-1) 0 - interf.getD (i-1) 0)
    / ((tenz.getD i 0 - interf.getD i 0) - (tenz.getD (i-1) 0 - interf.getD (i-1) 0))

/-- The claim's linearly interpolated crossing time. -/
def specTime (t tenz interf : List ℚ) (i : ℕ) : ℚ :=
  t.getD (i-1) 0 + specLam tenz interf i * (t.getD i 0 - t.getD (i-1) 0)

/-- The claim's amplitude: the midpoint average of the two series'
linearly interpolated values at the crossing time. -/
def specAmp (tenz interf : List ℚ) (i : ℕ) : ℚ :=
  ((tenz.getD (i-1) 0 + specLam tenz interf i * (tenz.getD i 0 - tenz.getD (i-1) 0))
    + (interf.getD (i-1) 0 + specLam tenz interf i * (interf.getD i 0 - interf.getD (i-1) 0))) / 2

/-- The loop body pushes a point exactly under the claim's conditions,
with the claim's time and amplitude. -/
lemma fsiStep_eq_some (t tenz interf : List ℚ) (thr : ℚ) (i : ℕ) (pt : ℚ × ℚ) :
    fsiStep t tenz interf thr i = some pt
      ↔ specCrossing tenz interf i ∧ |specAmp tenz interf i| ≤ thr
        ∧ pt = (specTime t tenz interf i, specAmp tenz interf i) := by
  have hlam : -(tenz.getD (i-1) 0 - interf.getD (i-1) 0)
      / ((tenz.getD i 0 - interf.getD i 0) - (tenz.getD (i-1) 0 - interf.getD (i-1) 0))
      = specLam tenz interf i := rfl
  have hamp : (tenz.getD (i-1) 0 + specLam tenz interf i * (tenz.getD i 0 - tenz.getD (i-1) 0)
      + interf.getD (i-1) 0 + specLam tenz interf i * (interf.getD i 0 - interf.getD (i-1) 0)) / 2
      = specAmp tenz interf i := by
    rw [specAmp]
    ring
  have htime : t.getD (i-1) 0 + specLam tenz interf i * (t.getD i 0 - t.getD (i-1) 0)
      = specTime t tenz interf i := rfl
  simp only [fsiStep]
  rw [hlam, hamp, htime]
  split_ifs with h1 h2
  · simp only [Option.some_inj]
    constructor
    · intro h
      exact ⟨h1, h2, h.symm⟩
    · intro ⟨_, _, h⟩
      exact h.symm
  · constructor
    · intro h
      exact absurd h (by simp)
    · intro ⟨_, hv2, _⟩
      exact absurd hv2 h2
  · constructor
    · intro h
      exact absurd h (by simp)
    · intro ⟨hc2, _, _⟩
      exact absurd hc2 h1

/-- Claim C6: for equal-length time-aligned sequences, the intersection
finder reports exactly the points described by the claim (sign change of
the pointwise difference, interpolated time, midpoint-average amplitude,
amplitude within the threshold), and the sign-change condition forces a
nonzero difference-delta, so the interpolation never divides by zero. -/
theorem claimC6 (t tenz interf : List ℚ) (thr : ℚ)
    (hz : tenz.length = t.length) (hi : interf.length = t.length) :
    (∀ pt : ℚ × ℚ, pt ∈ findSignalIntersectionsAtZero t tenz interf thr
      ↔ ∃ i, 1 ≤ i ∧ i < t.length ∧ specCrossing tenz interf i
          ∧ |specAmp tenz interf i| ≤ thr
          ∧ pt = (specTime t tenz interf i, specAmp tenz interf i))
    ∧ ∀ i, specCrossing tenz interf i →
        (tenz.getD i 0 - interf.getD i 0) - (tenz.getD (i-1) 0 - interf.getD (i-1) 0) ≠ 0 := by
  constructor
  · intro pt
    rw [findSignalIntersectionsAtZero, List.mem_filterMap]
    constructor
    · intro ⟨a, ha, hstep⟩
      rw [List.mem_range'] at ha
      simp only [one_mul] at ha
      obtain ⟨k, hk, rfl⟩ := ha
      obtain ⟨h1, h2, h3⟩ := (fsiStep_eq_some t tenz interf thr _ pt).mp hstep
      exact ⟨1 + k, by omega, by omega, h1, h2, h3⟩
    · intro ⟨i, hi1, hi2, h1, h2, h3⟩
      refine ⟨i, ?_, (fsiStep_eq_some t tenz interf thr i pt).mpr ⟨h1, h2, h3⟩⟩
      rw [List.mem_range']
      exact ⟨i - 1, by omega, by omega⟩
  · intro i hc
    rcases hc with ⟨h1, h2⟩ | ⟨h1, h2⟩
    · intro h0
      linarith
    · intro h0
      linarith

/-- Witness for C6: with `t = [0,1]`, `tenz = [1/100, -1/100]`,
`interf = [0,0]`, the finder reports the crossing at time `1/2` with
amplitude `0`. -/
theorem claimC6_witness :
    ((1:ℚ)/2, (0:ℚ)) ∈ findSignalIntersectionsAtZero [0, 1] [1/100, -1/100] [0, 0] (1/50) := by
  have h := claimC6 [0, 1] [1/100, -1/100] [0, 0] (1/50) (by norm_num) (by norm_num)
  refine (h.1 (1/2, 0)).mpr ⟨1, le_refl 1, by norm_num, ?_, ?_, ?_⟩
  · right
    constructor <;> norm_num [List.getD_cons_zero, List.getD_cons_succ]
  · norm_num [specAmp, specLam, List.getD_cons_zero, List.getD_cons_succ]
  · norm_num [Prod.ext_iff, specTime, specAmp, specLam,
      List.getD_cons_zero, List.getD_cons_succ]

/-! ## The CSV row parser (claims C4 and C5) -/

/-- The claim's acceptance criterion for a data row: at least 5
comma-separated fields whose entries 0, 1 and 3 all parse as finite
numbers. -/
def specRowAccept (line : List Char) : Prop :=
  5 ≤ (splitChar ',' line).length
  ∧ (jsParseFloat ((splitChar ',' line).getD 0 [])).isFinite = true
  ∧ (jsParseFloat ((splitChar ',' line).getD 1 [])).isFinite = true
  ∧ (jsParseFloat ((splitChar ',' line).getD 3 [])).isFinite = true

instance (line : List Char) : Decidable (specRowAccept line) := by
  unfold specRowAccept
  infer_instance

/-- Claim C4 (as stated) is false: a row whose first field reads
`Infinity` is not finite, yet `parseFloat` yields a non-`NaN` value and
the parser accepts the row, pushing `Infinity` into the time channel. -/
theorem claimC4_counterexample :
    (parseCSVRows ("TIME,CH1,A,B,C\nInfinity,1,0,1,0".toList) 1 100).t = [JSVal.posInf]
    ∧ ¬ specRowAccept ("Infinity,1,0,1,0".toList) := by
  constructor
  · decide
  · decide

/-- Claim C4, amended: an in-range post-header data row is accepted
exactly when it has at least 5 comma-separated fields whose entries 0, 1
and 3 all parse to non-`NaN` numbers (`±Infinity` included); an accepted
row contributes time unchanged, the strain value times `0.00132 * 1.25`,
and the interferometer value plus `0.04`; a rejected row only advances
the row counter and never causes an error. -/
theorem claimC4_amended (skipStart skipEnd : ℕ) (st : ParseState) (line : List Char)
    (hst : st.stopped = false) (hd : st.dataStarted = true)
    (hne : ¬ jsTrim line = []) (hhd : ¬ headerChars.isPrefixOf (jsTrim line))
    (hlo : ¬ st.lineCount + 1 < skipStart) (hhi : ¬ skipEnd < st.lineCount + 1) :
    ((5 ≤ (splitChar ',' (jsTrim line)).length
        ∧ ¬ (jsParseFloat ((splitChar ',' (jsTrim line)).getD 0 [])).isNaN
        ∧ ¬ (jsParseFloat ((splitChar ',' (jsTrim line)).getD 1 [])).isNaN
        ∧ ¬ (jsParseFloat ((splitChar ',' (jsTrim line)).getD 3 [])).isNaN)
      → processLine skipStart skipEnd st line =
          { st with
            lineCount := st.lineCount + 1
            t := st.t ++ [jsParseFloat ((splitChar ',' (jsTrim line)).getD 0 [])]
            tenz := st.tenz ++
              [jsMul (jsMul (jsParseFloat ((splitChar ',' (jsTrim line)).getD 1 []))
                (JSVal.num (132 / 100000))) (JSVal.num (125 / 100))]
            interf := st.interf ++
              [jsAdd (jsParseFloat ((splitChar ',' (jsTrim line)).getD 3 []))
                (JSVal.num (4 / 100))] })
    ∧ (¬ (5 ≤ (splitChar ',' (jsTrim line)).length
        ∧ ¬ (jsParseFloat ((splitChar ',' (jsTrim line)).getD 0 [])).isNaN
        ∧ ¬ (jsParseFloat ((splitChar ',' (jsTrim line)).getD 1 [])).isNaN
        ∧ ¬ (jsParseFloat ((splitChar ',' (jsTrim line)).getD 3 [])).isNaN)
      → processLine skipStart skipEnd st line = { st with lineCount := st.lineCount + 1 }) := by
  constructor
  · intro hacc
    simp only [processLine]
    rw [if_neg (by simp [hst]), if_neg hne, if_neg hhd, if_neg (by simp [hd]),
      if_neg hlo, if_neg hhi, if_pos hacc.1, if_pos ⟨hacc.2.1, hacc.2.2.1, hacc.2.2.2⟩]
  · intro hrej
    simp only [processLine]
    rw [if_neg (by simp [hst]), if_neg hne, if_neg hhd, if_neg (by simp [hd]),
      if_neg hlo, if_neg hhi]
    by_cases h5 : 5 ≤ (splitChar ',' (jsTrim line)).length
    · rw [if_pos h5]
      rw [if_neg (fun hn => hrej ⟨h5, hn.1, hn.2.1, hn.2.2⟩)]
    · rw [if_neg h5]

/-- Witness for C4 at a concrete accepted row. -/
theorem claimC4_witness :
    processLine 1 100 (⟨true, 0, false, [], [], []⟩ : ParseState) ("7,8,9,10,11".toList)
      = { dataStarted := true
          lineCount := 0 + 1
          stopped := false
          t := [] ++ [jsParseFloat ((splitChar ',' (jsTrim "7,8,9,10,11".toList)).getD 0 [])]
          tenz := [] ++
            [jsMul (jsMul (jsParseFloat ((splitChar ',' (jsTrim "7,8,9,10,11".toList)).getD 1 []))
              (JSVal.num (132 / 100000))) (JSVal.num (125 / 100))]
          interf := [] ++
            [jsAdd (jsParseFloat ((splitChar ',' (jsTrim "7,8,9,10,11".toList)).getD 3 []))
              (JSVal.num (4 / 100))] } := by
  exact (claimC4_amended 1 100 ⟨true, 0, false, [], [], []⟩ ("7,8,9,10,11".toList)
    rfl rfl (by decide) (by decide) (by norm_num) (by norm_num)).1
    ⟨by decide, by decide, by decide, by decide⟩

/-- Claim C5 (as stated) is false in its `startLineIndex = 0` part: `0` is
falsy, so `options.skipStart || 6650` replaces it by the default `6650`,
and the (perfectly well-formed) first data row is discarded. -/
theorem claimC5_counterexample :
    (parseCSVRows ("TIME,CH1,A,B,C\n1,2,3,4,5".toList) 0 10000).t = []
    ∧ specRowAccept ("1,2,3,4,5".toList)
    ∧ jsOrDefault 0 6650 = 6650 := by
  refine ⟨by decide, by decide, rfl⟩

/-- Claim C5, amended: a configured `startLineIndex` of `0` is replaced by
the default `6650` (JavaScript falsy-default), so leading rows are then
discarded; for the configured values actually in effect, the parser
discards exactly the post-header rows whose 1-based count is below
`skipStart`, stops at the first row whose count exceeds `skipEnd`, and
ignores every row after stopping. -/
theorem claimC5_amended :
    (∀ d : ℕ, jsOrDefault 0 d = d)
    ∧ (∀ (skipStart skipEnd : ℕ) (st : ParseState) (line : List Char),
        st.stopped = false → st.dataStarted = true → ¬ jsTrim line = [] →
        ¬ headerChars.isPrefixOf (jsTrim line) →
        (st.lineCount + 1 < skipStart →
          processLine skipStart skipEnd st line = { st with lineCount := st.lineCount + 1 })
        ∧ (¬ st.lineCount + 1 < skipStart → skipEnd < st.lineCount + 1 →
          processLine skipStart skipEnd st line
            = { st with
                lineCount := st.lineCount + 1
                stopped := true }))
    ∧ (∀ (skipStart skipEnd : ℕ) (st : ParseState) (line : List Char),
        st.stopped = true → processLine skipStart skipEnd st line = st) := by
  refine ⟨fun d => rfl, ?_, ?_⟩
  · intro skipStart skipEnd st line hst hd hne hhd
    constructor
    · intro hlt
      simp only [processLine]
      rw [if_neg (by simp [hst]), if_neg hne, if_neg hhd, if_neg (by simp [hd]), if_pos hlt]
    · intro hge hgt
      simp only [processLine]
      rw [if_neg (by simp [hst]), if_neg hne, if_neg hhd, if_neg (by simp [hd]),
        if_neg hge, if_pos hgt]
  · intro skipStart skipEnd st line hst
    simp only [processLine]
    rw [if_pos hst]

/-- Witness for C5 at concrete rows: one skipped below the threshold, one
stopping the loop, one ignored after the stop. -/
theorem claimC5_witness :
    jsOrDefault 0 9 = 9
    ∧ processLine 5 10 (⟨true, 2, false, [], [], []⟩ : ParseState) ("1,2,3,4,5".toList)
      = { dataStarted := true, lineCount := 2 + 1, stopped := false, t := [], tenz := [], interf := [] }
    ∧ processLine 1 2 (⟨true, 2, false, [], [], []⟩ : ParseState) ("1,2,3,4,5".toList)
      = { dataStarted := true, lineCount := 2 + 1, stopped := true, t := [], tenz := [], interf := [] }
    ∧ processLine 1 2 (⟨true, 3, true, [], [], []⟩ : ParseState) ("1,2,3,4,5".toList)
      = ⟨true, 3, true, [], [], []⟩ := by
  obtain ⟨hdef, hrow, hstop⟩ := claimC5_amended
  refine ⟨hdef 9, ?_, ?_, ?_⟩
  · exact (hrow 5 10 ⟨true, 2, false, [], [], []⟩ ("1,2,3,4,5".toList)
      rfl rfl (by decide) (by decide)).1 (by norm_num)
  · exact (hrow 1 2 ⟨true, 2, false, [], [], []⟩ ("1,2,3,4,5".toList)
      rfl rfl (by decide) (by decide)).2 (by norm_num) (by norm_num)
  · exact hstop 1 2 ⟨true, 3, true, [], [], []⟩ ("1,2,3,4,5".toList) rfl

/-! ## The jump-edge detector on the §8 synthetic step trace (claim C8)

The trace has 10,000 samples at unit spacing: the signal is 0 before the
step at index 5000, descends linearly over 20 samples, and is −1
afterwards.  The detector smooths with `savitzkyGolay(·, 11, 2)`; `S i`
below is the exact smoothed value at index `i`. -/

/-- The synthetic step signal of the §8 scenario. -/
def stepSig (i : ℕ) : ℚ :=
  if i < 5000 then 0 else if i < 5020 then -((i : ℚ) - 4999) / 20 else -1

/-- The synthetic time base: 10,000 samples at unit spacing. -/
def tC8 : List ℚ := (List.range 10000).map fun (i : ℕ) => (i : ℚ)

/-- The synthetic signal samples. -/
def fC8 : List ℚ := (List.range 10000).map stepSig

/-- The exact smoothed value at index `i`: the clamped window dot product
with the `(11, 2)` smoothing coefficients. -/
def S (i : ℕ) : ℚ :=
  ∑ v ∈ Finset.range 11, stepSig (clampIdx 10000 ((i : ℤ) + (v : ℤ) - 5)) * c11list.getD v 0

/-- `getD` on a mapped range inside the bound. -/
lemma getD_map_range {n i : ℕ} (g : ℕ → ℚ) (h : i < n) :
    ((List.range n).map g).getD i 0 = g i := by
  rw [List.getD_eq_getElem?_getD]
  simp [List.getElem?_map, List.getElem?_range, h]

lemma clampIdx_le {n m : ℕ} {x : ℤ} (h1 : x ≤ (m : ℤ)) (h2 : m < n) : clampIdx n x ≤ m := by
  unfold clampIdx
  split_ifs <;> omega

lemma clampIdx_ge {n m : ℕ} {x : ℤ} (h1 : (m : ℤ) ≤ x) (h2 : m ≤ n - 1) : m ≤ clampIdx n x := by
  unfold clampIdx
  split_ifs <;> omega

lemma stepSig_zero {k : ℕ} (h : k < 5000) : stepSig k = 0 := by
  unfold stepSig
  rw [if_pos h]

lemma stepSig_neg_one {k : ℕ} (h : 5019 ≤ k) : stepSig k = -1 := by
  unfold stepSig
  rw [if_neg (by omega)]
  by_cases h2 : k < 5020
  · rw [if_pos h2]
    have hk : k = 5019 := by omega
    subst hk
    norm_num
  · rw [if_neg h2]

/-- The smoothing run on the synthetic signal: savitzky-golay with the
detector's fixed `(11, 2)` parameters evaluates to `S` pointwise. -/
lemma smooth_fC8 : savitzkyGolay fC8 11 2 = (List.range 10000).map S := by
  have hp : normP (normW 11) 2 = 2 := rfl
  have h11 : sgCoeffs (normW 11) 2 = some c11vec := sgCoeffs_eleven_two
  simp only [savitzkyGolay, hp, h11]
  rw [if_neg (by simp [fC8])]
  refine (convolve_eval (sgRows (normW 11)) c11list fC8).trans ?_
  have hlen : fC8.length = 10000 := by simp [fC8]
  rw [hlen, show sgRows (normW 11) = 11 from rfl]
  refine List.map_congr_left fun i _ => ?_
  refine Finset.sum_congr rfl fun v _ => ?_
  rw [show (((11 : ℕ) / 2 : ℕ) : ℤ) = (5 : ℤ) from rfl]
  rw [show fC8.getD (clampIdx 10000 ((i : ℤ) + (v : ℤ) - 5)) 0
    = stepSig (clampIdx 10000 ((i : ℤ) + (v : ℤ) - 5)) from
    getD_map_range stepSig (clampIdx_lt (by norm_num) _)]

/-- Before the transition every window sample is zero. -/
lemma S_zero {i : ℕ} (hi : i ≤ 4994) : S i = 0 := by
  unfold S
  refine Finset.sum_eq_zero fun v hv => ?_
  rw [Finset.mem_range] at hv
  have harg : clampIdx 10000 ((i : ℤ) + (v : ℤ) - 5) < 5000 := by
    have h1 : clampIdx 10000 ((i : ℤ) + (v : ℤ) - 5) ≤ 4999 :=
      clampIdx_le (by omega) (by omega)
    omega
  rw [stepSig_zero harg, zero_mul]

/-- The coefficients sum to 1 (concrete check). -/
lemma sum_c11list : ∑ v ∈ Finset.range 11, c11list.getD v 0 = 1 := by
  norm_num [c11list, List.getD, Finset.sum_range_succ]

/-- After the transition every window sample is −1. -/
lemma S_neg_one {i : ℕ} (h1 : 5024 ≤ i) : S i = -1 := by
  unfold S
  have hcong : ∀ v ∈ Finset.range 11,
      stepSig (clampIdx 10000 ((i : ℤ) + (v : ℤ) - 5)) * c11list.getD v 0
        = -1 * c11list.getD v 0 := by
    intro v hv
    rw [Finset.mem_range] at hv
    have harg : 5019 ≤ clampIdx 10000 ((i : ℤ) + (v : ℤ) - 5) :=
      clampIdx_ge (by omega) (by omega)
    rw [stepSig_neg_one harg]
  rw [Finset.sum_congr rfl hcong, ← Finset.mul_sum, sum_c11list, mul_one]

/-- Away from the array boundary the clamp is a no-op. -/
lemma S_mid {i : ℕ} (h1 : 5 ≤ i) (h2 : i < 9995) :
    S i = ∑ v ∈ Finset.range 11, stepSig (i + v - 5) * c11list.getD v 0 := by
  unfold S
  refine Finset.sum_congr rfl fun v hv => ?_
  rw [Finset.mem_range] at hv
  have hc : clampIdx 10000 ((i : ℤ) + (v : ℤ) - 5) = i + v - 5 := by
    unfold clampIdx
    split_ifs <;> omega
  rw [hc]

set_option maxHeartbeats 1000000 in
/-- The minimum smoothed value over the transition region. -/
lemma S_transition_ge {i : ℕ} (h1 : 4995 ≤ i) (h2 : i ≤ 5023) : -2881/2860 ≤ S i := by
  rw [S_mid (by omega) (by omega)]
  have hd : i = 4995 ∨ i = 4996 ∨ i = 4997 ∨ i = 4998 ∨ i = 4999 ∨ i = 5000 ∨ i = 5001 ∨ i = 5002 ∨ i = 5003 ∨ i = 5004 ∨ i = 5005 ∨ i = 5006 ∨ i = 5007 ∨ i = 5008 ∨ i = 5009 ∨ i = 5010 ∨ i = 5011 ∨ i = 5012 ∨ i = 5013 ∨ i = 5014 ∨ i = 5015 ∨ i = 5016 ∨ i = 5017 ∨ i = 5018 ∨ i = 5019 ∨ i = 5020 ∨ i = 5021 ∨ i = 5022 ∨ i = 5023 := by omega
  rcases hd with rfl|rfl|rfl|rfl|rfl|rfl|rfl|rfl|rfl|rfl|rfl|rfl|rfl|rfl|rfl|rfl|rfl|rfl|rfl|rfl|rfl|rfl|rfl|rfl|rfl|rfl|rfl|rfl|rfl <;>
    norm_num [stepSig, c11list, List.getD, Finset.sum_range_succ]

/-- The undershoot minimum is attained at index 5022. -/
lemma S_5022 : S 5022 = -2881/2860 := by
  rw [S_mid (by omega) (by omega)]
  norm_num [stepSig, c11list, List.getD, Finset.sum_range_succ]

set_option maxHeartbeats 1000000 in
/-- Smoothed values stay above the detection threshold until index 5002. -/
lemma S_above_thr {i : ℕ} (h1 : 4995 ≤ i) (h2 : i ≤ 5002) : ¬ S i ≤ -8643/57200 := by
  rw [S_mid (by omega) (by omega)]
  have hd : i = 4995 ∨ i = 4996 ∨ i = 4997 ∨ i = 4998 ∨ i = 4999 ∨ i = 5000 ∨ i = 5001 ∨ i = 5002 := by omega
  rcases hd with rfl|rfl|rfl|rfl|rfl|rfl|rfl|rfl <;>
    norm_num [stepSig, c11list, List.getD, Finset.sum_range_succ]

/-- Index 5003 is the first to reach the detection threshold. -/
lemma S_5003_le : S 5003 ≤ -8643/57200 := by
  rw [S_mid (by omega) (by omega)]
  norm_num [stepSig, c11list, List.getD, Finset.sum_range_succ]

/-- A fold of `+` over an all-zero list keeps its accumulator. -/
lemma c8_foldl_add {l : List ℚ} (h : ∀ x ∈ l, x = 0) : ∀ b, l.foldl (· + ·) b = b := by
  induction l with
  | nil => intro b; rfl
  | cons a tl ih =>
    intro b
    rw [List.foldl_cons, h a (List.mem_cons_self a tl), add_zero]
    exact ih (fun x hx => h x (List.mem_cons_of_mem a hx)) b

/-- A min-fold never exceeds its seed. -/
lemma c8_foldl_min_le_init (l : List ℚ) : ∀ b, l.foldl (fun m v => min m v) b ≤ b := by
  induction l with
  | nil => intro b; exact le_of_eq rfl
  | cons a tl ih =>
    intro b
    rw [List.foldl_cons]
    exact le_trans (ih (min b a)) (min_le_left b a)

/-- A min-fold never exceeds any member of the list. -/
lemma c8_foldl_min_le {l : List ℚ} {x : ℚ} (hx : x ∈ l) :
    ∀ b, l.foldl (fun m v => min m v) b ≤ x := by
  induction l with
  | nil => cases hx
  | cons a tl ih =>
    intro b
    rw [List.foldl_cons]
    rcases List.mem_cons.mp hx with rfl | hmem
    · exact le_trans (c8_foldl_min_le_init tl (min b x)) (min_le_right b x)
    · exact ih hmem (min b a)

/-- A lower bound on the seed and every member bounds the min-fold. -/
lemma c8_le_foldl_min {l : List ℚ} {m : ℚ} (h : ∀ x ∈ l, m ≤ x) :
    ∀ b, m ≤ b → m ≤ l.foldl (fun m v => min m v) b := by
  induction l with
  | nil => intro b hb; exact hb
  | cons a tl ih =>
    intro b hb
    rw [List.foldl_cons]
    exact ih (fun x hx => h x (List.mem_cons_of_mem a hx)) (min b a)
      (le_min hb (h a (List.mem_cons_self a tl)))

/-- `firstIdxLE` finds the first index whose value reaches the threshold. -/
lemma firstIdxLE_eq_some {thr : ℚ} : ∀ {l : List ℚ} {m : ℕ}, m < l.length →
    (∀ j, j < m → ¬ l.getD j 0 ≤ thr) → l.getD m 0 ≤ thr →
    firstIdxLE l thr = some m := by
  intro l
  induction l with
  | nil => intro m hm _ _; exact absurd hm (by simp)
  | cons x xs ih =>
    intro m hm hpre hthr
    cases m with
    | zero =>
      rw [List.getD_cons_zero] at hthr
      simp only [firstIdxLE, if_pos hthr]
    | succ k =>
      have hx : ¬ x ≤ thr := by
        have := hpre 0 (Nat.succ_pos k)
        rwa [List.getD_cons_zero] at this
      rw [List.getD_cons_succ] at hthr
      have hrec : firstIdxLE xs thr = some k := by
        refine ih (by simpa using hm) (fun j hj => ?_) hthr
        have := hpre (j + 1) (by omega)
        rwa [List.getD_cons_succ] at this
      simp only [firstIdxLE, if_neg hx, hrec, Option.map_some']

/-- The leading-window baseline of the smoothed trace is zero. -/
lemma c8_baseline : ((List.range 500).map S).foldl (· + ·) 0 = 0 := by
  refine c8_foldl_add (fun x hx => ?_) 0
  rcases List.mem_map.mp hx with ⟨i, hi, rfl⟩
  rw [List.mem_range] at hi
  exact S_zero (by omega)

/-- The global minimum of the smoothed trace (seeded with the baseline 0). -/
lemma c8_minfold :
    ((List.range 10000).map S).foldl (fun m v => min m v) 0 = -2881/2860 := by
  refine le_antisymm ?_ ?_
  · have hmem : S 5022 ∈ (List.range 10000).map S :=
      List.mem_map_of_mem S (List.mem_range.mpr (by norm_num))
    have h := c8_foldl_min_le hmem 0
    rwa [S_5022] at h
  · refine c8_le_foldl_min (fun x hx => ?_) 0 (by norm_num)
    rcases List.mem_map.mp hx with ⟨i, hi, rfl⟩
    rw [List.mem_range] at hi
    rcases lt_or_le i 4995 with h | h
    · rw [S_zero (by omega)]
      norm_num
    · rcases le_or_lt i 5023 with h2 | h2
      · exact S_transition_ge h h2
      · rw [S_neg_one (by omega)]
        norm_num

/-- The forward threshold scan of the smoothed trace stops at index 5003. -/
lemma c8_first :
    firstIdxLE ((List.range 10000).map S) (-8643/57200) = some 5003 := by
  refine firstIdxLE_eq_some (by simp) (fun j hj => ?_) ?_
  · rw [getD_map_range S (by omega)]
    rcases lt_or_le j 4995 with h | h
    · rw [S_zero (by omega)]
      norm_num
    · exact S_above_thr h (by omega)
  · rw [getD_map_range S (by norm_num)]
    exact S_5003_le

/-- The full detector run on the synthetic step trace: the reported start
index is 5003 (three samples after the nominal step at 5000) and the
window spans 400 unit-spaced samples. -/
lemma c8_run : findLargestJumpStart tC8 fC8 = some (5003, 400) := by
  have hlent : tC8.length = 10000 := by simp [tC8]
  have hlenf : fC8.length = 10000 := by simp [fC8]
  simp only [findLargestJumpStart]
  rw [hlent, hlenf, smooth_fC8]
  rw [if_neg (by norm_num)]
  rw [show ((List.range 10000).map S).length = 10000 from by simp]
  rw [show max 20 (10000 * 5 / 100) = 500 from rfl]
  rw [show ((List.range 10000).map S).take 500 = (List.range 500).map S from by
    rw [← List.map_take, List.take_range]
    norm_num]
  rw [c8_baseline, zero_div, c8_minfold]
  rw [show (0 : ℚ) - -2881/2860 = 2881/2860 from by norm_num]
  rw [if_pos (show (0 : ℚ) < 2881/2860 from by norm_num)]
  rw [show (0 : ℚ) - 2881/2860 * (15 / 100) = -8643/57200 from by norm_num]
  rw [c8_first]
  rw [show Option.or (some 5003) (findJumpByDerivative tC8 ((List.range 10000).map S))
    = some 5003 from rfl]
  rw [Option.map_some']
  rw [show max 20 (10000 * 2 / 100) = 200 from rfl]
  rw [show (min (10000 - 1) (5003 + 200) : ℕ) = 5203 from rfl,
    show (5003 - 200 : ℕ) = 4803 from rfl]
  rw [show tC8.getD 5203 0 = ((5203 : ℕ) : ℚ) from
    getD_map_range (fun (i : ℕ) => (i : ℚ)) (by norm_num)]
  rw [show tC8.getD 4803 0 = ((4803 : ℕ) : ℚ) from
    getD_map_range (fun (i : ℕ) => (i : ℚ)) (by norm_num)]
  rw [show tC8.getD 5003 0 = ((5003 : ℕ) : ℚ) from
    getD_map_range (fun (i : ℕ) => (i : ℚ)) (by norm_num)]
  norm_num


/-- Claim C8: on the synthetic 10,000-sample step trace (0 before index
5000, 20-sample ramp, −1 after) the detector was claimed to return a time
within one sample spacing of the time at index 5000.  It does not: the
threshold scan first fires at index 5003, three samples after the step, so
the reported time 5003 misses the claimed band |time − 5000| ≤ 1. -/
theorem claimC8_counterexample :
    ∃ time window : ℚ, findLargestJumpStart tC8 fC8 = some (time, window) ∧
      ¬ |time - 5000| ≤ 1 :=
  ⟨5003, 400, c8_run, by norm_num⟩

/-- Claim C8 (amended): on the synthetic step trace the detector returns a
FocusHint with a strictly positive window (400 sample spacings), but its
time is the time at index 5003 — three sample spacings after the nominal
step index 5000, since the 15%-of-amplitude threshold scan on the smoothed
trace first fires there. -/
theorem claimC8_amended :
    ∃ time window : ℚ, findLargestJumpStart tC8 fC8 = some (time, window) ∧
      0 < window ∧ time - 5000 = 3 :=
  ⟨5003, 400, c8_run, by norm_num, by norm_num⟩

end SignalAnalyzer
